import Mathlib

/-!
Zone settings override: reconciliation of zone settings.

A shallow embedding of `cloudflare/resource_cloudflare_zone_settings_override.go`.

* Go values held in `interface{}` are the type `Value`.
* `*schema.ResourceData` is a record of the four accessors the resource code calls.
* The remote client is a function answering each write call; the calls made are
  collected in a trace.
* A Go run-time panic is the error side of `Go`; a returned `error` is an `Error`.
-/

namespace ZoneSettings

/-! ## Values -/

/-- A Go value held in an `interface{}`: what `d.Get` returns and what a
`cloudflare.ZoneSetting` carries in `Value`.
`int n` is a Go `int`, the type of a number in local data. `float q` is a Go `float64`, the
type in which JSON decoding delivers a number of a remote setting, given by the rational `q`
that is its value; a not-a-number or an infinity does not come out of JSON.
`map` lists the entries of a `map[string]interface{}` in a fixed key order. -/
inductive Value where
  | null
  | str (s : String)
  | int (n : Int)
  | float (q : ℚ)
  | bool (b : Bool)
  | list (xs : List Value)
  | map (m : List (String × Value))

mutual
/-- Structural equality of two values, as `reflect.DeepEqual` decides it. -/
def Value.beq : Value → Value → Bool
  | .null, .null => true
  | .str a, .str b => a == b
  | .int a, .int b => a == b
  | .float a, .float b => a == b
  | .bool a, .bool b => a == b
  | .list a, .list b => Value.beqList a b
  | .map a, .map b => Value.beqMap a b
  | _, _ => false
/-- Structural equality of two slices of values. -/
def Value.beqList : List Value → List Value → Bool
  | [], [] => true
  | a :: as, b :: bs => Value.beq a b && Value.beqList as bs
  | _, _ => false
/-- Structural equality of the entries of two maps. -/
def Value.beqMap : List (String × Value) → List (String × Value) → Bool
  | [], [] => true
  | (k, a) :: as, (j, b) :: bs => k == j && Value.beq a b && Value.beqMap as bs
  | _, _ => false
end

mutual
theorem Value.beq_iff : ∀ (a b : Value), Value.beq a b = true ↔ a = b
  | .null, b => by cases b <;> simp [Value.beq]
  | .str a, b => by cases b <;> simp [Value.beq]
  | .int a, b => by cases b <;> simp [Value.beq]
  | .float a, b => by cases b <;> simp [Value.beq]
  | .bool a, b => by cases b <;> simp [Value.beq]
  | .list a, b => by
      cases b <;> simp [Value.beq]
      exact Value.beqList_iff a _
  | .map a, b => by
      cases b <;> simp [Value.beq]
      exact Value.beqMap_iff a _
theorem Value.beqList_iff : ∀ (a b : List Value), Value.beqList a b = true ↔ a = b
  | [], b => by cases b <;> simp [Value.beqList]
  | a :: as, b => by
      cases b with
      | nil => simp [Value.beqList]
      | cons b bs => simp [Value.beqList, Value.beq_iff a b, Value.beqList_iff as bs]
theorem Value.beqMap_iff : ∀ (a b : List (String × Value)), Value.beqMap a b = true ↔ a = b
  | [], b => by cases b <;> simp [Value.beqMap]
  | (k, a) :: as, b => by
      cases b with
      | nil => simp [Value.beqMap]
      | cons b bs =>
        obtain ⟨j, b⟩ := b
        simp [Value.beqMap, Value.beq_iff a b, Value.beqMap_iff as bs, and_assoc]
end

instance : DecidableEq Value := fun a b =>
  decidable_of_iff (Value.beq a b = true) (Value.beq_iff a b)

/-- The fields of `cloudflare.ZoneSetting` that the resource reads or writes. -/
structure ZoneSetting where
  ID : String
  Editable : Bool
  Value : Value
  deriving DecidableEq

/-! ## Registry -/

/-- The `schema.ValueType` of a top-level entry of the settings schema. -/
inductive SchemaType where
  | TypeString
  | TypeInt
  | TypeList
  deriving DecidableEq

/-- The setting names of `resourceCloudflareZoneSettingsSchema` with their declared
type, in the order of the source text. -/
def resourceCloudflareZoneSettingsSchema : List (String × SchemaType) := [
  ("always_online", .TypeString), ("brotli", .TypeString),
  ("browser_cache_ttl", .TypeInt), ("browser_check", .TypeString),
  ("cache_level", .TypeString), ("ciphers", .TypeList),
  ("challenge_ttl", .TypeInt), ("development_mode", .TypeString),
  ("origin_error_page_pass_thru", .TypeString), ("sort_query_string_for_cache", .TypeString),
  ("email_obfuscation", .TypeString), ("hotlink_protection", .TypeString),
  ("ip_geolocation", .TypeString), ("ipv6", .TypeString),
  ("websockets", .TypeString), ("minify", .TypeList),
  ("mobile_redirect", .TypeList), ("mirage", .TypeString),
  ("opportunistic_encryption", .TypeString), ("opportunistic_onion", .TypeString),
  ("polish", .TypeString), ("webp", .TypeString),
  ("prefetch_preload", .TypeString), ("privacy_pass", .TypeString),
  ("response_buffering", .TypeString), ("rocket_loader", .TypeString),
  ("security_header", .TypeList), ("security_level", .TypeString),
  ("server_side_exclude", .TypeString), ("ssl", .TypeString),
  ("universal_ssl", .TypeString), ("tls_client_auth", .TypeString),
  ("true_client_ip_header", .TypeString), ("waf", .TypeString),
  ("min_tls_version", .TypeString), ("tls_1_2_only", .TypeString),
  ("tls_1_3", .TypeString), ("automatic_https_rewrites", .TypeString),
  ("http2", .TypeString), ("http3", .TypeString),
  ("pseudo_ipv4", .TypeString), ("always_use_https", .TypeString),
  ("cname_flattening", .TypeString), ("max_upload", .TypeInt),
  ("h2_prioritization", .TypeString), ("image_resizing", .TypeString),
  ("zero_rtt", .TypeString), ("orange_to_orange", .TypeString),
  ("filter_logs_to_cloudflare", .TypeString), ("log_to_cloudflare", .TypeString),
  ("visitor_ip", .TypeString), ("proxy_read_timeout", .TypeString),
  ("binary_ast", .TypeString), ("early_hints", .TypeString)
]

/-- The keys of the schema map, in the order of the source text. Go ranges over a map in
an unspecified order, so the functions that range over the schema take the order of
the keys as an argument. -/
def schemaKeys : List String := resourceCloudflareZoneSettingsSchema.map Prod.fst

def fetchAsSingleSetting : List String :=
  ["binary_ast", "h2_prioritization", "image_resizing", "early_hints"]

/-- Modelled from the spec: the helper `contains(slice, item)` is declared in another file
of the package; it tells whether the string is an element of the slice. -/
def contains (slice : List String) (item : String) : Bool := slice.elem item

/-- Modelled from the spec: the helper `boolFromString` is declared in another file of the
package; the toggle is a string-encoded boolean, "on" for true. -/
def boolFromString (status : String) : Bool := status == "on"

/-- Modelled from the spec: the helper `expandInterfaceToStringList` is declared in another
file of the package; it reads the stored list of read-only names as strings. -/
def expandInterfaceToStringList : Value → List String
  | .list xs => xs.filterMap fun v => match v with
    | .str s => some s
    | _ => none
  | _ => []

def settingInSchema (val : String) : Bool :=
  resourceCloudflareZoneSettingsSchema.any fun e => val == e.1

/-! ## Resource data, errors -/

/-- The accessors of `*schema.ResourceData` used by the resource. Each takes the
attribute path, such as `settings.0.polish`. `GetOk` and `GetOkExists` return the value
together with the `ok` flag. -/
structure ResourceData where
  Id : String
  Get : String → Value
  GetOk : String → Value × Bool
  GetOkExists : String → Value × Bool
  HasChange : String → Bool

/-- An `error` value returned by the resource code. -/
inductive Error where
  /-- The text "invalid zone setting %q (value: %v) found - cannot be set as it is read only". -/
  | readOnly (k : String) (settingValue : Value)
  /-- An error returned by a call of the remote client. -/
  | remote (msg : String)
  deriving DecidableEq

/-- A Go run-time panic. -/
inductive Crash where
  | typeAssertion
  | sliceBounds
  deriving DecidableEq

/-- The result of running Go code that may panic. -/
abbrev Go (α : Type) := Except Crash α

instance instDecidableEqExcept {ε α : Type} [DecidableEq ε] [DecidableEq α] :
    DecidableEq (Except ε α)
  | .ok a, .ok b => decidable_of_iff (a = b) (by simp)
  | .error a, .error b => decidable_of_iff (a = b) (by simp)
  | .ok _, .error _ => isFalse (by simp)
  | .error _, .ok _ => isFalse (by simp)

/-- The format string `fmt.Sprintf("%s.0.%%s", settingsKey)`, as the function that
`fmt.Sprintf(keyFormat, k)` computes. -/
def keyFormat (settingsKey : String) (k : String) : String := settingsKey ++ ".0." ++ k

def schemaValueEquals (a b : Value) : Bool := decide (a = b)

/-! ## Encoding -/

/-- The function `expandZoneSetting`: the wire value for the local value of setting `k`;
`Value.null` is the Go `nil` with which `zoneSettingValue` is declared. -/
def expandZoneSetting (d : ResourceData) (keyFormatString : String → String) (k : String)
    (settingValue : Value) (readOnlySettings : List String) : Go (Except Error Value) :=
  if contains readOnlySettings k then
    .ok (.error (.readOnly k settingValue))
  else if k = "webp" then
    match d.Get (keyFormatString "polish") with
    | .str polish =>
      if polish ≠ "" ∧ polish ≠ "off" then .ok (.ok settingValue) else .ok (.ok .null)
    | _ => .error .typeAssertion
  else if k = "minify" ∨ k = "mobile_redirect" then
    match settingValue with
    | .list [] => .ok (.ok .null)
    | .list (.map m :: _) => .ok (.ok (.map m))
    | _ => .error .typeAssertion
  else if k = "security_header" then
    match settingValue with
    | .list [] => .ok (.ok .null)
    | .list (.map m :: _) => .ok (.ok (.map [("strict_transport_security", .map m)]))
    | _ => .error .typeAssertion
  else
    .ok (.ok settingValue)

/-- The loop of `expandOverriddenZoneSettings` over the keys still to visit, with the
settings appended so far. -/
def expandOverriddenLoop (d : ResourceData) (settingsKey : String)
    (readOnlySettings : List String) :
    List String → List ZoneSetting → Go (List ZoneSetting × Option Error)
  | [], zoneSettings => .ok (zoneSettings, none)
  | k :: rest, zoneSettings =>
    if (d.GetOkExists (keyFormat settingsKey k)).2 = true ∧
        d.HasChange (keyFormat settingsKey k) = true then
      match expandZoneSetting d (keyFormat settingsKey) k
          (d.GetOkExists (keyFormat settingsKey k)).1 readOnlySettings with
      | .error c => .error c
      | .ok (.error err) => .ok (zoneSettings, some err)
      | .ok (.ok zoneSettingValue) =>
        if zoneSettingValue ≠ .null then
          expandOverriddenLoop d settingsKey readOnlySettings rest
            (zoneSettings ++
              [{ ID := if k = "zero_rtt" then "0rtt" else k, Editable := false,
                 Value := zoneSettingValue }])
        else
          expandOverriddenLoop d settingsKey readOnlySettings rest zoneSettings
    else
      expandOverriddenLoop d settingsKey readOnlySettings rest zoneSettings

/-- The function `expandOverriddenZoneSettings`; `order` is the order in which the range over
the schema yields its keys. The result is the pair the Go function returns. -/
def expandOverriddenZoneSettings (order : List String) (d : ResourceData) (settingsKey : String)
    (readOnlySettings : List String) : Go (List ZoneSetting × Option Error) :=
  expandOverriddenLoop d settingsKey readOnlySettings order []

/-- The loop of `expandRevertibleZoneSettings` over the keys still to visit, with the
settings appended so far. -/
def expandRevertibleLoop (d : ResourceData) (readOnlySettings : List String) :
    List String → List ZoneSetting → Go (List ZoneSetting × Option Error)
  | [], zoneSettings => .ok (zoneSettings, none)
  | k :: rest, zoneSettings =>
    if (d.GetOk ("settings.0." ++ k)).2 = true ∧
        schemaValueEquals (d.Get ("initial_settings.0." ++ k)) (d.GetOk ("settings.0." ++ k)).1
          = false then
      match expandZoneSetting d (keyFormat "initial_settings")
          (if k = "zero_rtt" then "0rtt" else k)
          (d.Get ("initial_settings.0." ++ k)) readOnlySettings with
      | .error c => .error c
      | .ok (.error err) => .ok (zoneSettings, some err)
      | .ok (.ok zoneSettingValue) =>
        if zoneSettingValue ≠ .null then
          expandRevertibleLoop d readOnlySettings rest
            (zoneSettings ++
              [{ ID := if k = "zero_rtt" then "0rtt" else k, Editable := false,
                 Value := zoneSettingValue }])
        else
          expandRevertibleLoop d readOnlySettings rest zoneSettings
    else
      expandRevertibleLoop d readOnlySettings rest zoneSettings

/-- The function `expandRevertibleZoneSettings`; `order` is the order in which the range over
the schema yields its keys. -/
def expandRevertibleZoneSettings (order : List String) (d : ResourceData)
    (readOnlySettings : List String) : Go (List ZoneSetting × Option Error) :=
  expandRevertibleLoop d readOnlySettings order []

/-! ## Decoding -/

/-- The integer `n` taken into the range of a 64-bit two's complement integer. -/
def wrapInt64 (n : Int) : Int := (n + 2 ^ 63) % 2 ^ 64 - 2 ^ 63

/-- The conversion `int(floatValue)` of a `float64` to an `int`: the fraction is discarded
(truncation towards zero) and the result is taken into the range of a 64-bit integer. For
a value outside that range Go leaves the result to the implementation. -/
def intOfFloat (floatValue : ℚ) : Int := wrapInt64 (Int.tdiv floatValue.num floatValue.den)

/-- The map `cfg` of `flattenZoneSettings`, as the list of its entries. -/
abbrev Cfg := List (String × Value)

/-- The assignment `cfg[k] = v`. -/
def Cfg.set (cfg : Cfg) (k : String) (v : Value) : Cfg :=
  (k, v) :: cfg.filter fun e => e.1 != k

/-- The loop of `flattenZoneSettings` over the remote settings still to visit. -/
def flattenLoop (d : ResourceData) (flattenAll : Bool) : List ZoneSetting → Cfg → Go Cfg
  | [], cfg => .ok cfg
  | s :: rest, cfg =>
    if settingInSchema (if s.ID = "0rtt" then "zero_rtt" else s.ID) = false then
      flattenLoop d flattenAll rest cfg
    else if (d.GetOkExists ("settings.0." ++ if s.ID = "0rtt" then "zero_rtt" else s.ID)).2 = false
        ∧ flattenAll = false then
      flattenLoop d flattenAll rest cfg
    else if (if s.ID = "0rtt" then "zero_rtt" else s.ID) = "minify"
        ∨ (if s.ID = "0rtt" then "zero_rtt" else s.ID) = "mobile_redirect" then
      match s.Value with
      | .map m =>
        flattenLoop d flattenAll rest
          (cfg.set (if s.ID = "0rtt" then "zero_rtt" else s.ID) (.list [.map m]))
      | _ => .error .typeAssertion
    else if (if s.ID = "0rtt" then "zero_rtt" else s.ID) = "security_header" then
      match s.Value with
      | .map m =>
        flattenLoop d flattenAll rest
          (cfg.set (if s.ID = "0rtt" then "zero_rtt" else s.ID)
            (.list [(m.lookup "strict_transport_security").getD .null]))
      | _ => .error .typeAssertion
    else
      match s.Value with
      | .list listValues =>
        flattenLoop d flattenAll rest
          (cfg.set (if s.ID = "0rtt" then "zero_rtt" else s.ID) (.list listValues))
      | .str strValue =>
        flattenLoop d flattenAll rest
          (cfg.set (if s.ID = "0rtt" then "zero_rtt" else s.ID) (.str strValue))
      | .float floatValue =>
        flattenLoop d flattenAll rest
          (cfg.set (if s.ID = "0rtt" then "zero_rtt" else s.ID) (.int (intOfFloat floatValue)))
      | _ => flattenLoop d flattenAll rest cfg

/-- The function `flattenZoneSettings`; the result is the one map of the returned slice. -/
def flattenZoneSettings (d : ResourceData) (settings : List ZoneSetting) (flattenAll : Bool) :
    Go Cfg :=
  flattenLoop d flattenAll settings []

def flattenReadOnlyZoneSettings (settings : List ZoneSetting) : List String :=
  settings.foldl (fun ids zs => if zs.Editable = false then ids ++ [zs.ID] else ids) []

/-- The settings that `resourceCloudflareZoneSettingsOverrideRead` stores with
`d.Set("settings", newZoneSettings)`, where `result` is `zoneSettings.Result` after the
remote reads. -/
def resourceCloudflareZoneSettingsOverrideRead (d : ResourceData) (result : List ZoneSetting) :
    Go Cfg :=
  match flattenZoneSettings d result false with
  | .error c => .error c
  | .ok newZoneSettings =>
    match newZoneSettings.lookup "polish" with
    | some (.str polish) =>
      if polish = "" ∨ polish = "off" then
        match d.Get "settings.0.webp" with
        | .str webp => .ok (newZoneSettings.set "webp" (.str webp))
        | _ => .error .typeAssertion
      else .ok newZoneSettings
    | some _ => .error .typeAssertion
    | none =>
      match d.Get "settings.0.webp" with
      | .str webp => .ok (newZoneSettings.set "webp" (.str webp))
      | _ => .error .typeAssertion

/-! ## Dispatch of a write-set -/

/-- A write call on the remote client. -/
inductive Call where
  | UpdateZoneSingleSetting (zoneID settingName : String) (setting : ZoneSetting)
  | EditUniversalSSLSetting (zoneID : String) (enabled : Bool)
  | UpdateZoneSettings (zoneID : String) (settings : List ZoneSetting)
  deriving DecidableEq

/-- The remote client: the error, if any, with which it answers a write call, given the
write calls made before. -/
abbrev Client := List Call → Call → Option Error

/-- The expression `append(zoneSettings[:indexToCut], zoneSettings[indexToCut+1:]...)`. The
slice expression `zoneSettings[indexToCut+1:]` panics when `indexToCut+1` exceeds the
length. -/
def cutIndex (zoneSettings : List ZoneSetting) (indexToCut : Nat) : Go (List ZoneSetting) :=
  if indexToCut + 1 ≤ zoneSettings.length then
    .ok (zoneSettings.take indexToCut ++ zoneSettings.drop (indexToCut + 1))
  else .error .sliceBounds

/-- The first loop of `updateSingleZoneSettings`: `i` is the index of the next setting,
`trace` the calls made so far. -/
def updateSingleLoop (client : Client) (zoneID : String) :
    List ZoneSetting → Nat → List Nat → List Call → Except Error (List Nat) × List Call
  | [], _, indexesToCut, trace => (.ok indexesToCut, trace)
  | setting :: rest, i, indexesToCut, trace =>
    if contains fetchAsSingleSetting setting.ID = true then
      match client trace (.UpdateZoneSingleSetting zoneID setting.ID setting) with
      | some err => (.error err, trace ++ [.UpdateZoneSingleSetting zoneID setting.ID setting])
      | none =>
        updateSingleLoop client zoneID rest (i + 1) (indexesToCut ++ [i])
          (trace ++ [.UpdateZoneSingleSetting zoneID setting.ID setting])
    else updateSingleLoop client zoneID rest (i + 1) indexesToCut trace

/-- The second loop of `updateSingleZoneSettings`, over `indexesToCut`. -/
def cutLoop : List Nat → List ZoneSetting → Go (List ZoneSetting)
  | [], zoneSettings => .ok zoneSettings
  | indexToCut :: rest, zoneSettings =>
    match cutIndex zoneSettings indexToCut with
    | .error c => .error c
    | .ok cut => cutLoop rest cut

/-- The function `updateSingleZoneSettings`, with the calls made so far passed in and the calls
made returned. -/
def updateSingleZoneSettings (zoneSettings : List ZoneSetting) (client : Client)
    (zoneID : String) (trace : List Call) : Go (List ZoneSetting × Option Error) × List Call :=
  match updateSingleLoop client zoneID zoneSettings 0 [] trace with
  | (.error err, trace1) => (.ok (zoneSettings, some err), trace1)
  | (.ok indexesToCut, trace1) =>
    match cutLoop indexesToCut zoneSettings with
    | .error c => (.error c, trace1)
    | .ok cut => (.ok (cut, none), trace1)

/-- The loop of `updateUniversalSSLSetting`; `indexToCut` is `none` for the initial `-1`. -/
def universalSSLLoop (client : Client) (zoneID : String) :
    List ZoneSetting → Nat → Option Nat → List Call → Go (Except Error (Option Nat)) × List Call
  | [], _, indexToCut, trace => (.ok (.ok indexToCut), trace)
  | setting :: rest, i, indexToCut, trace =>
    if setting.ID = "universal_ssl" then
      match setting.Value with
      | .str value =>
        if value ≠ "" then
          match client trace (.EditUniversalSSLSetting zoneID (boolFromString value)) with
          | some err =>
            (.ok (.error err), trace ++ [.EditUniversalSSLSetting zoneID (boolFromString value)])
          | none =>
            universalSSLLoop client zoneID rest (i + 1) (some i)
              (trace ++ [.EditUniversalSSLSetting zoneID (boolFromString value)])
        else universalSSLLoop client zoneID rest (i + 1) (some i) trace
      | _ => (.error .typeAssertion, trace)
    else universalSSLLoop client zoneID rest (i + 1) indexToCut trace

/-- The function `updateUniversalSSLSetting`, with the calls made so far passed in and the
calls made returned. -/
def updateUniversalSSLSetting (zoneSettings : List ZoneSetting) (client : Client)
    (zoneID : String) (trace : List Call) : Go (List ZoneSetting × Option Error) × List Call :=
  match universalSSLLoop client zoneID zoneSettings 0 none trace with
  | (.error c, trace1) => (.error c, trace1)
  | (.ok (.error err), trace1) => (.ok (zoneSettings, some err), trace1)
  | (.ok (.ok none), trace1) => (.ok (zoneSettings, none), trace1)
  | (.ok (.ok (some indexToCut)), trace1) =>
    match cutIndex zoneSettings indexToCut with
    | .error c => (.error c, trace1)
    | .ok cut => (.ok (cut, none), trace1)

/-- The writes of a write-set, lines 788 to 803 of `resourceCloudflareZoneSettingsOverrideUpdate`
and again lines 901 to 916 of `resourceCloudflareZoneSettingsOverrideDelete`: the error
returned, if any, and the write calls made. -/
def writeZoneSettings (zoneSettings : List ZoneSetting) (client : Client) (zoneID : String) :
    Go (Option Error) × List Call :=
  match updateSingleZoneSettings zoneSettings client zoneID [] with
  | (.error c, trace1) => (.error c, trace1)
  | (.ok (_, some err), trace1) => (.ok (some err), trace1)
  | (.ok (zoneSettings1, none), trace1) =>
    match updateUniversalSSLSetting zoneSettings1 client zoneID trace1 with
    | (.error c, trace2) => (.error c, trace2)
    | (.ok (_, some err), trace2) => (.ok (some err), trace2)
    | (.ok (zoneSettings2, none), trace2) =>
      if zoneSettings2.length > 0 then
        (.ok (client trace2 (.UpdateZoneSettings zoneID zoneSettings2)),
          trace2 ++ [.UpdateZoneSettings zoneID zoneSettings2])
      else (.ok none, trace2)

/-- The guard `cfg, ok := d.GetOkExists("settings"); ok && cfg != nil &&
len(cfg.([]interface{})) > 0`. -/
def settingsGiven (d : ResourceData) : Go Bool :=
  if (d.GetOkExists "settings").2 = true ∧ (d.GetOkExists "settings").1 ≠ .null then
    match (d.GetOkExists "settings").1 with
    | .list cfg => .ok (decide (cfg.length > 0))
    | _ => .error .typeAssertion
  else .ok false

/-- The function `resourceCloudflareZoneSettingsOverrideUpdate` up to its last statement: the
error it returns before reaching the final call of the read function (which makes no write
call), and the write calls made. -/
def resourceCloudflareZoneSettingsOverrideUpdate (order : List String) (d : ResourceData)
    (client : Client) : Go (Option Error) × List Call :=
  match settingsGiven d with
  | .error c => (.error c, [])
  | .ok false => (.ok none, [])
  | .ok true =>
    match expandOverriddenZoneSettings order d "settings"
        (expandInterfaceToStringList (d.Get "readonly_settings")) with
    | .error c => (.error c, [])
    | .ok (_, some err) => (.ok (some err), [])
    | .ok (zoneSettings, none) => writeZoneSettings zoneSettings client d.Id

/-- The function `resourceCloudflareZoneSettingsOverrideDelete`: the error it returns and the
write calls made. -/
def resourceCloudflareZoneSettingsOverrideDelete (order : List String) (d : ResourceData)
    (client : Client) : Go (Option Error) × List Call :=
  match settingsGiven d with
  | .error c => (.error c, [])
  | .ok false => (.ok none, [])
  | .ok true =>
    match expandRevertibleZoneSettings order d
        (expandInterfaceToStringList (d.Get "readonly_settings")) with
    | .error c => (.error c, [])
    | .ok (_, some err) => (.ok (some err), [])
    | .ok (zoneSettings, none) => writeZoneSettings zoneSettings client d.Id

/-- The remote client whose write calls all succeed. -/
def okClient : Client := fun _ _ => none

/-! ## Concrete resource data -/

/-- The zero value of a schema type, which `d.Get` returns for an attribute that is not set. -/
def zeroValue : SchemaType → Value
  | .TypeString => .str ""
  | .TypeInt => .int 0
  | .TypeList => .list []

/-- The zero value of the attribute at a path `settings.0.k` or `initial_settings.0.k`. -/
def zeroAt (key : String) : Value :=
  match resourceCloudflareZoneSettingsSchema.find?
      (fun e => key == "settings.0." ++ e.1 || key == "initial_settings.0." ++ e.1) with
  | some e => zeroValue e.2
  | none => .list []

/-- Resource data given by the attributes of the prior state (`old`) and of the planned
state (`new`), each a list of paths with their values, following the documented behaviour of
the SDK: `Get` reads the planned state and gives the zero value for a path that is not set,
`GetOk` reports a value that is set and not the zero value, `GetOkExists` reports a value that
is set, and `HasChange` compares the prior and the planned value. -/
def ResourceData.ofAttrs (id : String) (old new : List (String × Value)) : ResourceData where
  Id := id
  Get key := (new.lookup key).getD (zeroAt key)
  GetOk key := match new.lookup key with
    | some v => (v, decide (v ≠ zeroAt key))
    | none => (zeroAt key, false)
  GetOkExists key := match new.lookup key with
    | some v => (v, true)
    | none => (zeroAt key, false)
  HasChange key :=
    decide ((old.lookup key).getD (zeroAt key) ≠ (new.lookup key).getD (zeroAt key))

/-- The remote settings of a read in which `0rtt` is reported as not editable. -/
def remoteZeroRtt : List ZoneSetting :=
  [{ ID := "0rtt", Editable := false, Value := .str "off" }]

/-- Resource data in which `zero_rtt` goes from "off" to "on", after a read that stored the
read-only names of `remoteZeroRtt`. -/
def dZeroRtt : ResourceData :=
  ResourceData.ofAttrs "zone"
    [("settings", .list [.map []]), ("settings.0.zero_rtt", .str "off"),
     ("readonly_settings", .list [.str "0rtt"])]
    [("settings", .list [.map []]), ("settings.0.zero_rtt", .str "on"),
     ("readonly_settings", .list [.str "0rtt"])]

/-- Resource data for a revert: `cache_level` was "basic" at capture and is "aggressive"
now, `ssl` was "flexible" and is "full" now; `cache_level` is stored as read-only. -/
def dRevertReadOnly : ResourceData :=
  ResourceData.ofAttrs "zone" []
    [("settings", .list [.map []]),
     ("settings.0.cache_level", .str "aggressive"), ("settings.0.ssl", .str "full"),
     ("initial_settings.0.cache_level", .str "basic"),
     ("initial_settings.0.ssl", .str "flexible"),
     ("readonly_settings", .list [.str "cache_level"])]

/-- A write-set with two single-fetch entries followed by a bulk entry. -/
def writeSetTwoSingles : List ZoneSetting :=
  [{ ID := "binary_ast", Editable := false, Value := .str "on" },
   { ID := "h2_prioritization", Editable := false, Value := .str "on" },
   { ID := "cache_level", Editable := false, Value := .str "basic" }]

/-- A write-set with two single-fetch entries followed by two bulk entries. -/
def writeSetTwoSinglesTwoBulk : List ZoneSetting :=
  [{ ID := "image_resizing", Editable := false, Value := .str "on" },
   { ID := "early_hints", Editable := false, Value := .str "on" },
   { ID := "ssl", Editable := false, Value := .str "full" },
   { ID := "cache_level", Editable := false, Value := .str "basic" }]

/-- The entries of a write-set that belong to neither the single-fetch names nor
`universal_ssl`. -/
def bulkEligible (zoneSettings : List ZoneSetting) : List ZoneSetting :=
  zoneSettings.filter fun z => !contains fetchAsSingleSetting z.ID && z.ID != "universal_ssl"

/-- Resource data with three settings changed: `cache_level` from "basic" to "aggressive",
`universal_ssl` and `binary_ast` from "off" to "on"; the baseline holds the old values. -/
def dThreeKinds : ResourceData :=
  ResourceData.ofAttrs "zone"
    [("settings", .list [.map []]),
     ("settings.0.cache_level", .str "basic"), ("settings.0.universal_ssl", .str "off"),
     ("settings.0.binary_ast", .str "off"),
     ("initial_settings.0.cache_level", .str "basic"),
     ("initial_settings.0.universal_ssl", .str "off"),
     ("initial_settings.0.binary_ast", .str "off")]
    [("settings", .list [.map []]),
     ("settings.0.cache_level", .str "aggressive"), ("settings.0.universal_ssl", .str "on"),
     ("settings.0.binary_ast", .str "on"),
     ("initial_settings.0.cache_level", .str "basic"),
     ("initial_settings.0.universal_ssl", .str "off"),
     ("initial_settings.0.binary_ast", .str "off")]

/-- Resource data in which the desired values equal the last-known values, and `cache_level`
is stored as read-only. -/
def dUnchanged : ResourceData :=
  ResourceData.ofAttrs "zone"
    [("settings", .list [.map []]),
     ("settings.0.cache_level", .str "basic"), ("settings.0.browser_cache_ttl", .int 0),
     ("readonly_settings", .list [.str "cache_level"])]
    [("settings", .list [.map []]),
     ("settings.0.cache_level", .str "basic"), ("settings.0.browser_cache_ttl", .int 0),
     ("readonly_settings", .list [.str "cache_level"])]

/-- The three list attributes whose element is a nested block. -/
def nestedNames : List String := ["minify", "mobile_redirect", "security_header"]

/-- The local values of the shape that the schema declares for the registry name `k`: a string,
an integer, a list of strings, or for the three nested names a list of one map. An integer
is taken within the range in which every integer is a `float64`, the type in which a remote
number arrives. -/
def validLocal (k : String) (v : Value) : Bool :=
  match resourceCloudflareZoneSettingsSchema.lookup k, v with
  | some .TypeString, .str _ => true
  | some .TypeInt, .int n => decide (n.natAbs ≤ 2 ^ 53)
  | some .TypeList, .list xs =>
    if nestedNames.elem k then
      match xs with
      | [.map _] => true
      | _ => false
    else
      xs.all fun x => match x with
        | .str _ => true
        | _ => false
  | _, _ => false

/-- The sibling `polish` value under `settingsKey` is a string other than "" and "off". -/
def polishOn (d : ResourceData) (settingsKey : String) : Prop :=
  ∃ p, d.Get (keyFormat settingsKey "polish") = .str p ∧ p ≠ "" ∧ p ≠ "off"

/-- Resource data in which `webp` goes from "off" to "on" while `polish` is "lossless", in the
settings and in the baseline. -/
def dWebpPolishOn : ResourceData :=
  ResourceData.ofAttrs "zone"
    [("settings", .list [.map []]),
     ("settings.0.polish", .str "lossless"), ("settings.0.webp", .str "off"),
     ("initial_settings.0.polish", .str "lossless"), ("initial_settings.0.webp", .str "off")]
    [("settings", .list [.map []]),
     ("settings.0.polish", .str "lossless"), ("settings.0.webp", .str "on"),
     ("initial_settings.0.polish", .str "lossless"), ("initial_settings.0.webp", .str "off")]

/-- Resource data of a read: the stored `webp` is "on" and the stored `polish` is "off". -/
def dReadWebp : ResourceData :=
  ResourceData.ofAttrs "zone" []
    [("settings", .list [.map []]),
     ("settings.0.polish", .str "off"), ("settings.0.webp", .str "on")]

/-- A remote read that reports `polish` "off" and `webp` "off". -/
def remotePolishOff : List ZoneSetting :=
  [{ ID := "polish", Editable := true, Value := .str "off" },
   { ID := "webp", Editable := true, Value := .str "off" }]

/-- Resource data for a revert: `browser_cache_ttl` was 14400 at capture and is set to 0
now. -/
def dZeroCurrent : ResourceData :=
  ResourceData.ofAttrs "zone" []
    [("settings", .list [.map []]),
     ("settings.0.browser_cache_ttl", .int 0),
     ("initial_settings.0.browser_cache_ttl", .int 14400)]

/-- Resource data in which `h2_prioritization`, `image_resizing` and `zero_rtt` go from "off"
to "on". -/
def dTwoSingles : ResourceData :=
  ResourceData.ofAttrs "zone"
    [("settings", .list [.map []]),
     ("settings.0.h2_prioritization", .str "off"), ("settings.0.image_resizing", .str "off"),
     ("settings.0.zero_rtt", .str "off")]
    [("settings", .list [.map []]),
     ("settings.0.h2_prioritization", .str "on"), ("settings.0.image_resizing", .str "on"),
     ("settings.0.zero_rtt", .str "on")]

/-- The identifier under which the setting with registry name `k` is written: the
assignment `if k == "zero_rtt" { k = "0rtt" }`. -/
def wireID (k : String) : String := if k = "zero_rtt" then "0rtt" else k

/-- The shape of the value of a list attribute with at most one nested block: an empty list,
or a list whose first element is a map. -/
def nestedShape : Value → Bool
  | .list [] => true
  | .list (.map _ :: _) => true
  | _ => false

/-- The types of the values that the revert reads, which the schema fixes: `polish` of the
baseline is a string, and the baselines of the three attributes with a nested block are
lists of maps. -/
structure RevertTyped (d : ResourceData) : Prop where
  polish : ∃ s, d.Get (keyFormat "initial_settings" "polish") = .str s
  nested : ∀ k, k = "minify" ∨ k = "mobile_redirect" ∨ k = "security_header" →
    nestedShape (d.Get ("initial_settings.0." ++ k)) = true

/-- The types of the values that the apply reads, which the schema fixes: `polish` of the
settings is a string, and the values of the three attributes with a nested block are lists of
maps. -/
structure ApplyTyped (d : ResourceData) : Prop where
  polish : ∃ s, d.Get (keyFormat "settings" "polish") = .str s
  nested : ∀ k, k = "minify" ∨ k = "mobile_redirect" ∨ k = "security_header" →
    nestedShape (d.GetOkExists (keyFormat "settings" k)).1 = true

/-- Resource data after a revert that the remote stored: every current value equals its
baseline. -/
def dReverted : ResourceData :=
  ResourceData.ofAttrs "zone" []
    [("settings", .list [.map []]),
     ("settings.0.cache_level", .str "basic"), ("settings.0.universal_ssl", .str "off"),
     ("settings.0.binary_ast", .str "off"),
     ("initial_settings.0.cache_level", .str "basic"),
     ("initial_settings.0.universal_ssl", .str "off"),
     ("initial_settings.0.binary_ast", .str "off"),
     ("readonly_settings", .list [.str "cache_level"])]

/-- A remote read with two settings that are not editable, one of them listed twice. -/
def remoteMixed : List ZoneSetting :=
  [{ ID := "ssl", Editable := false, Value := .str "full" },
   { ID := "cache_level", Editable := true, Value := .str "basic" },
   { ID := "0rtt", Editable := false, Value := .str "off" },
   { ID := "ssl", Editable := false, Value := .str "full" }]

/-- The single-fetch write calls that a write-set asks for, in the order of the write-set. -/
def singleCalls (zoneID : String) (zoneSettings : List ZoneSetting) : List Call :=
  (zoneSettings.filter fun s => contains fetchAsSingleSetting s.ID).map
    fun s => .UpdateZoneSingleSetting zoneID s.ID s

/-- A remote client that refuses the write of `h2_prioritization` and accepts every other
write. -/
def clientFailsH2 : Client := fun _ c =>
  match c with
  | .UpdateZoneSingleSetting _ settingName _ =>
    if settingName = "h2_prioritization" then some (.remote "HTTP status 500") else none
  | _ => none

/-- A write-set with a single-fetch entry, a bulk entry, a second single-fetch entry, the
toggle entry and a third single-fetch entry. -/
def writeSetMixed : List ZoneSetting :=
  [{ ID := "binary_ast", Editable := false, Value := .str "on" },
   { ID := "cache_level", Editable := false, Value := .str "basic" },
   { ID := "h2_prioritization", Editable := false, Value := .str "on" },
   { ID := "universal_ssl", Editable := false, Value := .str "on" },
   { ID := "early_hints", Editable := false, Value := .str "on" }]

/-- A write-set with two single-fetch entries and nothing else. -/
def writeSetOnlySingles : List ZoneSetting :=
  [{ ID := "binary_ast", Editable := false, Value := .str "on" },
   { ID := "h2_prioritization", Editable := false, Value := .str "on" }]

/-- The name under which a remote setting is decoded: the assignment
`if s.ID == "0rtt" { s.ID = "zero_rtt" }`. -/
def localName (id : String) : String := if id = "0rtt" then "zero_rtt" else id

/-- The body of the loop of `flattenZoneSettings` for one remote setting. -/
def flattenStep (d : ResourceData) (flattenAll : Bool) (s : ZoneSetting) (cfg : Cfg) : Go Cfg :=
  if settingInSchema (localName s.ID) = false then .ok cfg
  else if (d.GetOkExists ("settings.0." ++ localName s.ID)).2 = false ∧ flattenAll = false then
    .ok cfg
  else if localName s.ID = "minify" ∨ localName s.ID = "mobile_redirect" then
    match s.Value with
    | .map m => .ok (cfg.set (localName s.ID) (.list [.map m]))
    | _ => .error .typeAssertion
  else if localName s.ID = "security_header" then
    match s.Value with
    | .map m =>
      .ok (cfg.set (localName s.ID) (.list [(m.lookup "strict_transport_security").getD .null]))
    | _ => .error .typeAssertion
  else
    match s.Value with
    | .list listValues => .ok (cfg.set (localName s.ID) (.list listValues))
    | .str strValue => .ok (cfg.set (localName s.ID) (.str strValue))
    | .float floatValue => .ok (cfg.set (localName s.ID) (.int (intOfFloat floatValue)))
    | _ => .ok cfg

/-- A remote setting that the decoder does not skip: its local name is in the schema, and it
is set locally or all settings are decoded. -/
def accepted (d : ResourceData) (flattenAll : Bool) (s : ZoneSetting) : Prop :=
  localName s.ID ∈ schemaKeys ∧
    (flattenAll = true ∨ (d.GetOkExists ("settings.0." ++ localName s.ID)).2 = true)

/-- The remote values of a type that the decoder recognises for the local name `k`: a map for
the three nested names, and a list, a string or a `float64` for the other names. -/
def recognised (k : String) (v : Value) : Bool :=
  if nestedNames.elem k then
    match v with
    | .map _ => true
    | _ => false
  else
    match v with
    | .list _ => true
    | .str _ => true
    | .float _ => true
    | _ => false

/-- Resource data in which only `cache_level` and `zero_rtt` are set locally. -/
def dSparse : ResourceData :=
  ResourceData.ofAttrs "zone" []
    [("settings", .list [.map []]),
     ("settings.0.cache_level", .str "basic"), ("settings.0.zero_rtt", .str "off")]

/-- A remote read with two settings of the schema, one under the identifier `0rtt`, a
setting the schema does not know, and a setting of the schema with a value of a type that
is not recognised. -/
def remoteWithUnknown : List ZoneSetting :=
  [{ ID := "cache_level", Editable := true, Value := .str "aggressive" },
   { ID := "brand_new_setting", Editable := true, Value := .str "on" },
   { ID := "0rtt", Editable := false, Value := .str "on" },
   { ID := "ssl", Editable := true, Value := .str "full" },
   { ID := "waf", Editable := true, Value := .bool true }]

/-- The entry that the loop of `expandOverriddenZoneSettings` appends for the key `k`: none
when `k` is not set or not changed, or when the encoder gives the nil value. -/
def overriddenEntry (d : ResourceData) (settingsKey : String) (ro : List String) (k : String) :
    Option ZoneSetting :=
  if (d.GetOkExists (keyFormat settingsKey k)).2 = true ∧
      d.HasChange (keyFormat settingsKey k) = true then
    match expandZoneSetting d (keyFormat settingsKey) k
        (d.GetOkExists (keyFormat settingsKey k)).1 ro with
    | .ok (.ok w) =>
      if w ≠ .null then some { ID := wireID k, Editable := false, Value := w } else none
    | _ => none
  else none

/-- The resource data of the end-to-end example: `cache_level` goes from "basic" to
"aggressive" and `minify` from all "off" to css and html "on"; nothing is read-only. -/
def dEndToEnd : ResourceData :=
  ResourceData.ofAttrs "zone"
    [("settings", .list [.map []]),
     ("settings.0.cache_level", .str "basic"),
     ("settings.0.minify",
       .list [.map [("css", .str "off"), ("html", .str "off"), ("js", .str "off")]])]
    [("settings", .list [.map []]),
     ("settings.0.cache_level", .str "aggressive"),
     ("settings.0.minify",
       .list [.map [("css", .str "on"), ("html", .str "on"), ("js", .str "off")]])]

/-- The two entries of the write-set of the end-to-end example. -/
def endToEndEntries : List ZoneSetting :=
  [{ ID := "cache_level", Editable := false, Value := .str "aggressive" },
   { ID := "minify", Editable := false,
     Value := .map [("css", .str "on"), ("html", .str "on"), ("js", .str "off")] }]

/-- Resource data in which `zero_rtt` goes from "off" to "on" and its baseline is "off". -/
def dRename : ResourceData :=
  ResourceData.ofAttrs "zone"
    [("settings", .list [.map []]), ("settings.0.zero_rtt", .str "off"),
     ("initial_settings.0.zero_rtt", .str "off")]
    [("settings", .list [.map []]), ("settings.0.zero_rtt", .str "on"),
     ("initial_settings.0.zero_rtt", .str "off")]

/-- Resource data in which `security_header` goes from a policy to the empty list. -/
def dEmptyApply : ResourceData :=
  ResourceData.ofAttrs "zone"
    [("settings", .list [.map []]),
     ("settings.0.security_header", .list [.map [("enabled", .bool true)]])]
    [("settings", .list [.map []]),
     ("settings.0.security_header", .list [])]

/-- Resource data in which `security_header` is a policy now and was not captured in the
baseline, so that its baseline is the empty list. -/
def dEmptyRevert : ResourceData :=
  ResourceData.ofAttrs "zone" []
    [("settings", .list [.map []]),
     ("settings.0.security_header", .list [.map [("enabled", .bool true)]])]

/-- Resource data in which only `h2_prioritization` and `binary_ast` go from "off" to
"on". -/
def dOnlySingles : ResourceData :=
  ResourceData.ofAttrs "zone"
    [("settings", .list [.map []]),
     ("settings.0.h2_prioritization", .str "off"), ("settings.0.binary_ast", .str "off")]
    [("settings", .list [.map []]),
     ("settings.0.h2_prioritization", .str "on"), ("settings.0.binary_ast", .str "on")]

/-- A write-set with a bulk entry followed by two single-fetch entries. -/
def writeSetBulkThenSingles : List ZoneSetting :=
  [{ ID := "cache_level", Editable := false, Value := .str "basic" },
   { ID := "image_resizing", Editable := false, Value := .str "on" },
   { ID := "early_hints", Editable := false, Value := .str "on" }]

/-- Resource data in which `universal_ssl` is set to "on" and was not captured in the baseline,
as when it is first set after the creation of the resource. -/
def dUsslNoBaseline : ResourceData :=
  ResourceData.ofAttrs "zone" []
    [("settings", .list [.map []]),
     ("settings.0.universal_ssl", .str "on")]

/-- A remote read in which `universal_ssl` is "on", as before the revert, since the revert
wrote nothing. -/
def remoteUsslOn : List ZoneSetting :=
  [{ ID := "ssl", Editable := true, Value := .str "full" },
   { ID := "universal_ssl", Editable := true, Value := .str "on" }]

/-- The resource data after the read of `remoteUsslOn` in `dUsslNoBaseline`: the settings are
the ones that the read stores. -/
def dUsslReread : ResourceData :=
  ResourceData.ofAttrs "zone" []
    [("settings", .list [.map []]),
     ("settings.0.webp", .str ""), ("settings.0.universal_ssl", .str "on")]

/-- Resource data for a revert of four settings that stand one after the other in the source
text of the schema: each is "on" now and was "off" at capture. -/
def dFourSet : ResourceData :=
  ResourceData.ofAttrs "zone" []
    [("settings", .list [.map []]),
     ("settings.0.h2_prioritization", .str "on"), ("settings.0.image_resizing", .str "on"),
     ("settings.0.zero_rtt", .str "on"), ("settings.0.orange_to_orange", .str "on"),
     ("initial_settings.0.h2_prioritization", .str "off"),
     ("initial_settings.0.image_resizing", .str "off"),
     ("initial_settings.0.zero_rtt", .str "off"),
     ("initial_settings.0.orange_to_orange", .str "off")]

/-- The resource data of `dFourSet` after a remote stored the writes of its revert and reported
them back: `zero_rtt`, which was not written, is still "on". -/
def dFourAfter : ResourceData :=
  ResourceData.ofAttrs "zone" []
    [("settings", .list [.map []]),
     ("settings.0.h2_prioritization", .str "off"), ("settings.0.image_resizing", .str "off"),
     ("settings.0.zero_rtt", .str "on"), ("settings.0.orange_to_orange", .str "off"),
     ("initial_settings.0.h2_prioritization", .str "off"),
     ("initial_settings.0.image_resizing", .str "off"),
     ("initial_settings.0.zero_rtt", .str "off"),
     ("initial_settings.0.orange_to_orange", .str "off")]

/-! ## Theorems -/

/-- C1: at the failing input, where the remote reports `0rtt` as not editable and the desired
`zero_rtt` changes from "off" to "on", the read-only set is `["0rtt"]`, yet
`expandOverriddenZoneSettings` returns the entry `0rtt = "on"` with no error and the update
writes it with `UpdateZoneSettings`. -/
theorem C1_zero_rtt_read_only_is_written :
    flattenReadOnlyZoneSettings remoteZeroRtt = ["0rtt"] ∧
    expandInterfaceToStringList (dZeroRtt.Get "readonly_settings") = ["0rtt"] ∧
    (dZeroRtt.GetOkExists "settings.0.zero_rtt").2 = true ∧
    dZeroRtt.HasChange "settings.0.zero_rtt" = true ∧
    expandOverriddenZoneSettings schemaKeys dZeroRtt "settings"
        (flattenReadOnlyZoneSettings remoteZeroRtt)
      = .ok ([{ ID := "0rtt", Editable := false, Value := .str "on" }], none) ∧
    resourceCloudflareZoneSettingsOverrideUpdate schemaKeys dZeroRtt okClient
      = (.ok none,
          [.UpdateZoneSettings "zone"
            [{ ID := "0rtt", Editable := false, Value := .str "on" }]]) := by
  set_option maxRecDepth 100000 in decide

/-- C2, counterexample: `cache_level` is read-only, set, and differs from its baseline; the
revert returns the read-only error and an empty write-set, which lacks the entry for the
other differing name `ssl`. -/
theorem C2_revert_fails_on_read_only :
    (dRevertReadOnly.GetOk "settings.0.cache_level").2 = true ∧
    schemaValueEquals (dRevertReadOnly.Get "initial_settings.0.cache_level")
      (dRevertReadOnly.GetOk "settings.0.cache_level").1 = false ∧
    (dRevertReadOnly.GetOk "settings.0.ssl").2 = true ∧
    schemaValueEquals (dRevertReadOnly.Get "initial_settings.0.ssl")
      (dRevertReadOnly.GetOk "settings.0.ssl").1 = false ∧
    expandRevertibleZoneSettings schemaKeys dRevertReadOnly ["cache_level"]
      = .ok ([], some (.readOnly "cache_level" (.str "basic"))) := by
  set_option maxRecDepth 100000 in decide

/-- C3: at the failing input, a write-set with distinct names whose first two entries are
single-fetch names, all writes succeed and the list passed to `UpdateZoneSettings` is the
single-fetch entry `h2_prioritization`. So it is for the update of `dTwoSingles` with the keys
in the order of the source text: the list passed is the single-fetch entry
`image_resizing`. -/
theorem C3_single_fetch_entry_reaches_bulk :
    (writeSetTwoSingles.map (·.ID)).Nodup ∧
    writeZoneSettings writeSetTwoSingles okClient "zone"
      = (.ok none,
          [.UpdateZoneSingleSetting "zone" "binary_ast"
             { ID := "binary_ast", Editable := false, Value := .str "on" },
           .UpdateZoneSingleSetting "zone" "h2_prioritization"
             { ID := "h2_prioritization", Editable := false, Value := .str "on" },
           .UpdateZoneSettings "zone"
             [{ ID := "h2_prioritization", Editable := false, Value := .str "on" }]]) ∧
    contains fetchAsSingleSetting "h2_prioritization" = true ∧
    expandOverriddenZoneSettings schemaKeys dTwoSingles "settings" []
      = .ok ([{ ID := "h2_prioritization", Editable := false, Value := .str "on" },
              { ID := "image_resizing", Editable := false, Value := .str "on" },
              { ID := "0rtt", Editable := false, Value := .str "on" }], none) ∧
    resourceCloudflareZoneSettingsOverrideUpdate schemaKeys dTwoSingles okClient
      = (.ok none,
          [.UpdateZoneSingleSetting "zone" "h2_prioritization"
             { ID := "h2_prioritization", Editable := false, Value := .str "on" },
           .UpdateZoneSingleSetting "zone" "image_resizing"
             { ID := "image_resizing", Editable := false, Value := .str "on" },
           .UpdateZoneSettings "zone"
             [{ ID := "image_resizing", Editable := false, Value := .str "on" }]]) := by
  set_option maxRecDepth 100000 in decide

/-- C4: at the failing input, a write-set with distinct names whose first two entries are
single-fetch names, the bulk-eligible entries are `ssl` and `cache_level`, yet the list passed
to `UpdateZoneSettings` is `early_hints`, `cache_level`: the entry `ssl` is lost. -/
theorem C4_bulk_entry_lost :
    (writeSetTwoSinglesTwoBulk.map (·.ID)).Nodup ∧
    bulkEligible writeSetTwoSinglesTwoBulk
      = [{ ID := "ssl", Editable := false, Value := .str "full" },
         { ID := "cache_level", Editable := false, Value := .str "basic" }] ∧
    writeZoneSettings writeSetTwoSinglesTwoBulk okClient "zone"
      = (.ok none,
          [.UpdateZoneSingleSetting "zone" "image_resizing"
             { ID := "image_resizing", Editable := false, Value := .str "on" },
           .UpdateZoneSingleSetting "zone" "early_hints"
             { ID := "early_hints", Editable := false, Value := .str "on" },
           .UpdateZoneSettings "zone"
             [{ ID := "early_hints", Editable := false, Value := .str "on" },
              { ID := "cache_level", Editable := false, Value := .str "basic" }]]) := by
  decide

/-! ### The encoder -/

theorem expandZoneSetting_readOnly (d : ResourceData) (kf : String → String) (k : String)
    (v : Value) (ro : List String) (h : contains ro k = true) :
    expandZoneSetting d kf k v ro = .ok (.error (.readOnly k v)) := by
  simp [expandZoneSetting, h]

theorem expandZoneSetting_error_inv (d : ResourceData) (kf : String → String) (k : String)
    (v : Value) (ro : List String) (e : Error)
    (h : expandZoneSetting d kf k v ro = .ok (.error e)) :
    contains ro k = true ∧ e = .readOnly k v := by
  unfold expandZoneSetting at h
  split at h
  · rename_i hro
    simp at h
    exact ⟨hro, h.symm⟩
  · split at h
    · split at h
      · split at h <;> simp at h
      · simp at h
    · split at h
      · split at h <;> simp at h
      · split at h
        · split at h <;> simp at h
        · simp at h

theorem expandZoneSetting_total (d : ResourceData) (kf : String → String) (k : String)
    (v : Value) (ro : List String) (hp : ∃ s, d.Get (kf "polish") = .str s)
    (hn : k = "minify" ∨ k = "mobile_redirect" ∨ k = "security_header" → nestedShape v = true) :
    ∃ r, expandZoneSetting d kf k v ro = .ok r := by
  obtain ⟨s, hs⟩ := hp
  unfold expandZoneSetting
  split
  · exact ⟨_, rfl⟩
  · split
    · rw [hs]
      simp only
      split <;> exact ⟨_, rfl⟩
    · split
      · rename_i hk
        have hv := hn (by rcases hk with h | h <;> simp [h])
        split
        · exact ⟨_, rfl⟩
        · exact ⟨_, rfl⟩
        · rename_i h1 h2
          exfalso
          unfold nestedShape at hv
          split at hv
          · exact h1 rfl
          · exact h2 _ _ rfl
          · simp at hv
      · split
        · rename_i hk
          have hv := hn (by simp [hk])
          split
          · exact ⟨_, rfl⟩
          · exact ⟨_, rfl⟩
          · rename_i h1 h2
            exfalso
            unfold nestedShape at hv
            split at hv
            · exact h1 rfl
            · exact h2 _ _ rfl
            · simp at hv
        · exact ⟨_, rfl⟩

theorem wireID_nested (k : String)
    (h : wireID k = "minify" ∨ wireID k = "mobile_redirect" ∨ wireID k = "security_header") :
    k = "minify" ∨ k = "mobile_redirect" ∨ k = "security_header" := by
  unfold wireID at h
  split at h
  · exfalso
    have h0 : ¬ ("0rtt" = "minify" ∨ "0rtt" = "mobile_redirect" ∨ "0rtt" = "security_header") := by
      decide
    exact h0 h
  · exact h

/-! ### The revert write-set -/

theorem expandRevertibleLoop_readOnly (d : ResourceData) (ro : List String)
    (ht : RevertTyped d) (k : String)
    (hset : (d.GetOk ("settings.0." ++ k)).2 = true)
    (hdiff : schemaValueEquals (d.Get ("initial_settings.0." ++ k))
      (d.GetOk ("settings.0." ++ k)).1 = false)
    (hro : contains ro (wireID k) = true) :
    ∀ (order : List String) (acc : List ZoneSetting), k ∈ order →
      (∀ z ∈ acc, contains ro z.ID = false) →
      ∃ zs k1 v1, expandRevertibleLoop d ro order acc = .ok (zs, some (.readOnly k1 v1)) ∧
        contains ro k1 = true ∧ ∀ z ∈ zs, contains ro z.ID = false := by
  intro order
  induction order with
  | nil => intro acc hk; simp at hk
  | cons k0 rest ih =>
    intro acc hk hacc
    unfold expandRevertibleLoop
    split
    · -- the head is set and differs from its baseline
      have htot := expandZoneSetting_total d (keyFormat "initial_settings") (wireID k0)
        (d.Get ("initial_settings.0." ++ k0)) ro ht.polish
        (fun h => ht.nested k0 (wireID_nested k0 h))
      obtain ⟨r, hr⟩ := htot
      simp only [wireID] at hr
      rw [hr]
      cases r with
      | error e =>
        have hinv := expandZoneSetting_error_inv _ _ _ _ _ _ hr
        simp only
        exact ⟨acc, _, _, by rw [hinv.2], hinv.1, hacc⟩
      | ok w =>
        have hk0 : contains ro (wireID k0) = false := by
          by_contra hc
          have hc2 : contains ro (wireID k0) = true := by simpa using hc
          have := expandZoneSetting_readOnly d (keyFormat "initial_settings") (wireID k0)
            (d.Get ("initial_settings.0." ++ k0)) ro hc2
          simp only [wireID] at this
          rw [hr] at this
          simp at this
        have hne : k ≠ k0 := by
          intro h
          rw [h, hk0] at hro
          simp at hro
        have hkr : k ∈ rest := by
          rcases List.mem_cons.mp hk with h | h
          · exact absurd h hne
          · exact h
        simp only
        split
        · apply ih _ hkr
          intro z hz
          rcases List.mem_append.mp hz with h | h
          · exact hacc z h
          · simp at h
            rw [h]
            simpa [wireID] using hk0
        · exact ih _ hkr hacc
    · rename_i hcond
      have hne : k ≠ k0 := by
        intro h
        apply hcond
        rw [← h]
        exact ⟨hset, hdiff⟩
      have hkr : k ∈ rest := by
        rcases List.mem_cons.mp hk with h | h
        · exact absurd h hne
        · exact h
      exact ih _ hkr hacc

/-- C2, amended: when the wire identifier of some name yielded by the range is in the read-only
set, its current value is set and differs from its baseline, then
`expandRevertibleZoneSettings` returns the read-only error for a name of the read-only set,
and the write-set returned with it holds no entry of the read-only set. -/
theorem C2_revert_read_only_error (order : List String) (d : ResourceData) (ro : List String)
    (k : String) (ht : RevertTyped d) (hk : k ∈ order)
    (hset : (d.GetOk ("settings.0." ++ k)).2 = true)
    (hdiff : schemaValueEquals (d.Get ("initial_settings.0." ++ k))
      (d.GetOk ("settings.0." ++ k)).1 = false)
    (hro : contains ro (wireID k) = true) :
    ∃ zs k1 v1, expandRevertibleZoneSettings order d ro = .ok (zs, some (.readOnly k1 v1)) ∧
      contains ro k1 = true ∧ ∀ z ∈ zs, contains ro z.ID = false :=
  expandRevertibleLoop_readOnly d ro ht k hset hdiff hro order [] hk (by simp)

theorem dRevertReadOnly_typed : RevertTyped dRevertReadOnly where
  polish := ⟨"", by decide⟩
  nested := by
    intro k hk
    rcases hk with h | h | h <;> subst h <;> decide

/-- C2, witness: the amended statement at the data of the counterexample. -/
theorem C2_revert_read_only_error_witness :
    ∃ zs k1 v1, expandRevertibleZoneSettings schemaKeys dRevertReadOnly ["cache_level"]
        = .ok (zs, some (.readOnly k1 v1)) ∧
      contains ["cache_level"] k1 = true ∧ ∀ z ∈ zs, contains ["cache_level"] z.ID = false :=
  C2_revert_read_only_error schemaKeys dRevertReadOnly ["cache_level"] "cache_level"
    dRevertReadOnly_typed (by decide) (by decide) (by decide) (by decide)

/-! ### Dispatch -/

/-- C5, counterexample: for a write-set with one toggle entry, one single-fetch entry and one
bulk entry, the single write comes first and the toggle write second. -/
theorem C5_toggle_is_not_first :
    writeZoneSettings
        [{ ID := "universal_ssl", Editable := false, Value := .str "on" },
         { ID := "binary_ast", Editable := false, Value := .str "on" },
         { ID := "cache_level", Editable := false, Value := .str "basic" }] okClient "zone"
      = (.ok none,
          [.UpdateZoneSingleSetting "zone" "binary_ast"
             { ID := "binary_ast", Editable := false, Value := .str "on" },
           .EditUniversalSSLSetting "zone" true,
           .UpdateZoneSettings "zone"
             [{ ID := "cache_level", Editable := false, Value := .str "basic" }]]) := by
  decide

theorem perm_three {α : Type} (l : List α) (a b c : α) (h : l.Perm [a, b, c]) :
    l = [a, b, c] ∨ l = [a, c, b] ∨ l = [b, a, c] ∨ l = [b, c, a] ∨ l = [c, a, b] ∨
      l = [c, b, a] := by
  have hm : l ∈ [a, b, c].permutations := List.mem_permutations.mpr h
  have e : [a, b, c].permutations
      = [[a, b, c], [b, a, c], [c, b, a], [b, c, a], [c, a, b], [a, c, b]] := by
    simp [List.permutations, List.permutationsAux, List.permutationsAux.rec,
      List.permutationsAux2]
  rw [e] at hm
  simp only [List.mem_cons, List.mem_singleton, List.not_mem_nil, or_false] at hm
  tauto

theorem writeZoneSettings_three (u s b : ZoneSetting) (v : String)
    (zoneSettings : List ZoneSetting) (client : Client) (zoneID : String)
    (hu : u.ID = "universal_ssl") (hv : u.Value = .str v) (hne : v ≠ "")
    (hs : contains fetchAsSingleSetting s.ID = true)
    (hb : contains fetchAsSingleSetting b.ID = false) (hb2 : b.ID ≠ "universal_ssl")
    (hperm : zoneSettings.Perm [u, s, b]) (hclient : ∀ t c, client t c = none) :
    writeZoneSettings zoneSettings client zoneID
      = (.ok none,
          [.UpdateZoneSingleSetting zoneID s.ID s,
           .EditUniversalSSLSetting zoneID (boolFromString v),
           .UpdateZoneSettings zoneID [b]]) := by
  have hu1 : contains fetchAsSingleSetting "universal_ssl" = false := by decide
  have hs2 : s.ID ≠ "universal_ssl" := by
    intro h
    rw [h] at hs
    revert hs
    decide
  rcases perm_three zoneSettings u s b hperm with h | h | h | h | h | h <;> subst h <;>
    simp [writeZoneSettings, updateSingleZoneSettings, updateSingleLoop, cutLoop, cutIndex,
      updateUniversalSSLSetting, universalSSLLoop, hu, hv, hne, hs, hb, hb2, hs2, hu1, hclient]

/-- C5, amended: for a write-set that holds, in any order, one `universal_ssl` entry with a
non-empty value, one single-fetch entry and one bulk entry, and a client whose writes succeed,
the write calls are exactly one `UpdateZoneSingleSetting`, then one `EditUniversalSSLSetting`,
then one `UpdateZoneSettings` with the bulk entry; so it is for the update and for the delete
whenever this is the write-set they compute. -/
theorem C5_dispatch_single_toggle_bulk (u s b : ZoneSetting) (v : String)
    (zoneSettings : List ZoneSetting) (client : Client) (zoneID : String)
    (hu : u.ID = "universal_ssl") (hv : u.Value = .str v) (hne : v ≠ "")
    (hs : contains fetchAsSingleSetting s.ID = true)
    (hb : contains fetchAsSingleSetting b.ID = false) (hb2 : b.ID ≠ "universal_ssl")
    (hperm : zoneSettings.Perm [u, s, b]) (hclient : ∀ t c, client t c = none) :
    writeZoneSettings zoneSettings client zoneID
      = (.ok none,
          [.UpdateZoneSingleSetting zoneID s.ID s,
           .EditUniversalSSLSetting zoneID (boolFromString v),
           .UpdateZoneSettings zoneID [b]]) ∧
    (∀ (order : List String) (d : ResourceData), d.Id = zoneID → settingsGiven d = .ok true →
      expandOverriddenZoneSettings order d "settings"
        (expandInterfaceToStringList (d.Get "readonly_settings")) = .ok (zoneSettings, none) →
      resourceCloudflareZoneSettingsOverrideUpdate order d client
        = (.ok none,
            [.UpdateZoneSingleSetting zoneID s.ID s,
             .EditUniversalSSLSetting zoneID (boolFromString v),
             .UpdateZoneSettings zoneID [b]])) ∧
    (∀ (order : List String) (d : ResourceData), d.Id = zoneID → settingsGiven d = .ok true →
      expandRevertibleZoneSettings order d
        (expandInterfaceToStringList (d.Get "readonly_settings")) = .ok (zoneSettings, none) →
      resourceCloudflareZoneSettingsOverrideDelete order d client
        = (.ok none,
            [.UpdateZoneSingleSetting zoneID s.ID s,
             .EditUniversalSSLSetting zoneID (boolFromString v),
             .UpdateZoneSettings zoneID [b]])) := by
  have hw := writeZoneSettings_three u s b v zoneSettings client zoneID hu hv hne hs hb hb2
    hperm hclient
  refine ⟨hw, ?_, ?_⟩
  · intro order d hid hgiven hexp
    simp only [resourceCloudflareZoneSettingsOverrideUpdate, hgiven, hexp, hid, hw]
  · intro order d hid hgiven hexp
    simp only [resourceCloudflareZoneSettingsOverrideDelete, hgiven, hexp, hid, hw]

/-- C5, witness: the update and the delete of `dThreeKinds`, whose write-sets hold the bulk
entry first, the toggle entry second and the single-fetch entry last. -/
theorem C5_dispatch_single_toggle_bulk_witness :
    resourceCloudflareZoneSettingsOverrideUpdate schemaKeys dThreeKinds okClient
      = (.ok none,
          [.UpdateZoneSingleSetting "zone" "binary_ast"
             { ID := "binary_ast", Editable := false, Value := .str "on" },
           .EditUniversalSSLSetting "zone" true,
           .UpdateZoneSettings "zone"
             [{ ID := "cache_level", Editable := false, Value := .str "aggressive" }]]) ∧
    resourceCloudflareZoneSettingsOverrideDelete schemaKeys dThreeKinds okClient
      = (.ok none,
          [.UpdateZoneSingleSetting "zone" "binary_ast"
             { ID := "binary_ast", Editable := false, Value := .str "off" },
           .EditUniversalSSLSetting "zone" false,
           .UpdateZoneSettings "zone"
             [{ ID := "cache_level", Editable := false, Value := .str "basic" }]]) :=
  ⟨(C5_dispatch_single_toggle_bulk
      { ID := "universal_ssl", Editable := false, Value := .str "on" }
      { ID := "binary_ast", Editable := false, Value := .str "on" }
      { ID := "cache_level", Editable := false, Value := .str "aggressive" } "on"
      [{ ID := "cache_level", Editable := false, Value := .str "aggressive" },
       { ID := "universal_ssl", Editable := false, Value := .str "on" },
       { ID := "binary_ast", Editable := false, Value := .str "on" }] okClient "zone"
      rfl rfl (by decide) (by decide) (by decide) (by decide)
      (by decide) (fun _ _ => rfl)).2.1 schemaKeys dThreeKinds rfl (by decide)
      (by set_option maxRecDepth 100000 in decide),
   (C5_dispatch_single_toggle_bulk
      { ID := "universal_ssl", Editable := false, Value := .str "off" }
      { ID := "binary_ast", Editable := false, Value := .str "off" }
      { ID := "cache_level", Editable := false, Value := .str "basic" } "off"
      [{ ID := "cache_level", Editable := false, Value := .str "basic" },
       { ID := "universal_ssl", Editable := false, Value := .str "off" },
       { ID := "binary_ast", Editable := false, Value := .str "off" }] okClient "zone"
      rfl rfl (by decide) (by decide) (by decide) (by decide)
      (by decide) (fun _ _ => rfl)).2.2 schemaKeys dThreeKinds rfl (by decide)
      (by set_option maxRecDepth 100000 in decide)⟩

/-! ### The apply write-set -/

theorem expandOverriddenLoop_unchanged (d : ResourceData) (settingsKey : String)
    (ro : List String) :
    ∀ (order : List String) (acc : List ZoneSetting),
      (∀ k ∈ order, ¬ ((d.GetOkExists (keyFormat settingsKey k)).2 = true ∧
        d.HasChange (keyFormat settingsKey k) = true)) →
      expandOverriddenLoop d settingsKey ro order acc = .ok (acc, none) := by
  intro order
  induction order with
  | nil => intro acc _; rfl
  | cons k rest ih =>
    intro acc h
    unfold expandOverriddenLoop
    rw [if_neg (h k (by simp))]
    exact ih acc (fun k1 hk1 => h k1 (by simp [hk1]))

/-- C6: when no registry name that is set in the desired settings has changed from its
last-known value, `expandOverriddenZoneSettings` returns the empty write-set without error,
whatever the read-only set, and the update makes no write call and returns no error. -/
theorem C6_no_op_suppression (order : List String) (d : ResourceData) (ro : List String)
    (horder : ∀ k ∈ order, k ∈ schemaKeys)
    (h : ∀ k ∈ schemaKeys, ¬ ((d.GetOkExists (keyFormat "settings" k)).2 = true ∧
      d.HasChange (keyFormat "settings" k) = true)) :
    expandOverriddenZoneSettings order d "settings" ro = .ok ([], none) ∧
    ∀ client : Client,
      (resourceCloudflareZoneSettingsOverrideUpdate order d client).2 = [] ∧
      ∀ given, settingsGiven d = .ok given →
        resourceCloudflareZoneSettingsOverrideUpdate order d client = (.ok none, []) := by
  have hloop : ∀ ro, expandOverriddenZoneSettings order d "settings" ro = .ok ([], none) :=
    fun ro => expandOverriddenLoop_unchanged d "settings" ro order []
      (fun k hk => h k (horder k hk))
  have hw : ∀ client zoneID, writeZoneSettings [] client zoneID = (.ok none, []) := by
    intro client zoneID
    simp [writeZoneSettings, updateSingleZoneSettings, updateSingleLoop, cutLoop,
      updateUniversalSSLSetting, universalSSLLoop]
  refine ⟨hloop ro, fun client => ?_⟩
  unfold resourceCloudflareZoneSettingsOverrideUpdate
  rw [hloop]
  cases hg : settingsGiven d with
  | error c => simp
  | ok given =>
    cases given <;> simp [hw]

/-- C6, witness: the desired values of `dUnchanged` equal the last-known ones, and the
read-only set names a setting that is set. -/
theorem C6_no_op_suppression_witness :
    expandOverriddenZoneSettings schemaKeys dUnchanged "settings" ["cache_level"]
      = .ok ([], none) ∧
    ∀ client : Client,
      (resourceCloudflareZoneSettingsOverrideUpdate schemaKeys dUnchanged client).2 = [] ∧
      ∀ given, settingsGiven dUnchanged = .ok given →
        resourceCloudflareZoneSettingsOverrideUpdate schemaKeys dUnchanged client
          = (.ok none, []) :=
  C6_no_op_suppression schemaKeys dUnchanged ["cache_level"] (fun _ hk => hk)
    (by set_option maxRecDepth 100000 in decide)

/-! ### The codec -/

theorem settingInSchema_iff (k : String) : settingInSchema k = true ↔ k ∈ schemaKeys := by
  simp only [settingInSchema, schemaKeys, List.any_eq_true, List.mem_map, beq_iff_eq]
  constructor
  · rintro ⟨e, he, rfl⟩
    exact ⟨e, he, rfl⟩
  · rintro ⟨e, he, rfl⟩
    exact ⟨e, he, rfl⟩

theorem zero_rtt_wire_not_in_schema : "0rtt" ∉ schemaKeys := by decide

theorem localName_wireID (k : String) (hk : k ∈ schemaKeys) :
    (if wireID k = "0rtt" then "zero_rtt" else wireID k) = k := by
  unfold wireID
  by_cases h : k = "zero_rtt"
  · simp [h]
  · have h0 : k ≠ "0rtt" := fun h0 => zero_rtt_wire_not_in_schema (h0 ▸ hk)
    simp [h, h0]

theorem Cfg.lookup_set_self (cfg : Cfg) (k : String) (v : Value) :
    (cfg.set k v).lookup k = some v := by
  simp [Cfg.set, List.lookup]

theorem nestedNames_elem (k : String) :
    nestedNames.elem k = true ↔ k = "minify" ∨ k = "mobile_redirect" ∨ k = "security_header" := by
  simp [nestedNames]

theorem validLocal_nested (k : String) (v : Value) (hk : nestedNames.elem k = true)
    (hv : validLocal k v = true) : ∃ m, v = .list [.map m] := by
  have hl : resourceCloudflareZoneSettingsSchema.lookup k = some .TypeList := by
    rcases (nestedNames_elem k).mp hk with h | h | h <;> subst h <;> decide
  unfold validLocal at hv
  rw [hl] at hv
  split at hv
  · rename_i h; simp at h
  · rename_i h; simp at h
  · rw [if_pos hk] at hv
    split at hv
    · exact ⟨_, rfl⟩
    · simp at hv
  · simp at hv

theorem validLocal_plain (k : String) (v : Value) (hv : validLocal k v = true) :
    (∃ s, v = .str s) ∨ (∃ n : Int, v = .int n ∧ n.natAbs ≤ 2 ^ 53) ∨ (∃ xs, v = .list xs) := by
  unfold validLocal at hv
  split at hv
  · exact Or.inl ⟨_, rfl⟩
  · exact Or.inr (Or.inl ⟨_, rfl, by simpa using hv⟩)
  · exact Or.inr (Or.inr ⟨_, rfl⟩)
  · simp at hv

theorem intOfFloat_intCast (n : Int) (h : n.natAbs ≤ 2 ^ 53) : intOfFloat (n : ℚ) = n := by
  unfold intOfFloat wrapInt64
  simp only [Rat.intCast_num, Rat.intCast_den, Nat.cast_one, Int.tdiv_one]
  omega

theorem flatten_one_nested (d : ResourceData) (flattenAll editable : Bool) (k : String)
    (m : List (String × Value)) (hk : k ∈ schemaKeys)
    (hn : k = "minify" ∨ k = "mobile_redirect")
    (hset : flattenAll = true ∨ (d.GetOkExists ("settings.0." ++ k)).2 = true) :
    flattenZoneSettings d [{ ID := wireID k, Editable := editable, Value := .map m }] flattenAll
      = .ok [(k, .list [.map m])] := by
  have hloc := localName_wireID k hk
  have hin := (settingInSchema_iff k).mpr hk
  have hsparse : ¬ ((d.GetOkExists ("settings.0." ++ k)).2 = false ∧ flattenAll = false) := by
    rcases hset with h | h <;> simp [h]
  simp only [flattenZoneSettings, flattenLoop, hloc, hin, hsparse, hn, if_true, if_false,
    Cfg.set, List.filter_nil]
  simp

theorem flatten_one_security_header (d : ResourceData) (flattenAll editable : Bool)
    (m : List (String × Value))
    (hset : flattenAll = true ∨ (d.GetOkExists ("settings.0." ++ "security_header")).2 = true) :
    flattenZoneSettings d
        [{ ID := wireID "security_header", Editable := editable,
           Value := .map [("strict_transport_security", .map m)] }] flattenAll
      = .ok [("security_header", .list [.map m])] := by
  have hk : "security_header" ∈ schemaKeys := by decide
  have hloc := localName_wireID "security_header" hk
  have hin := (settingInSchema_iff "security_header").mpr hk
  have hsparse : ¬ ((d.GetOkExists ("settings.0." ++ "security_header")).2 = false
      ∧ flattenAll = false) := by
    rintro ⟨h1, h2⟩
    rcases hset with h | h
    · rw [h] at h2; cases h2
    · rw [h] at h1; cases h1
  have h1 : ¬ ("security_header" = "minify" ∨ "security_header" = "mobile_redirect") := by
    decide
  simp only [flattenZoneSettings, flattenLoop, hloc, hin, hsparse, h1, if_true, if_false,
    Cfg.set, List.filter_nil]
  simp [List.lookup]

theorem flatten_one_plain (d : ResourceData) (flattenAll editable : Bool) (k : String)
    (v : Value) (hk : k ∈ schemaKeys) (hn : nestedNames.elem k = false)
    (hv : (∃ s, v = .str s) ∨ (∃ xs, v = .list xs))
    (hset : flattenAll = true ∨ (d.GetOkExists ("settings.0." ++ k)).2 = true) :
    flattenZoneSettings d [{ ID := wireID k, Editable := editable, Value := v }] flattenAll
      = .ok [(k, v)] := by
  have hloc := localName_wireID k hk
  have hin := (settingInSchema_iff k).mpr hk
  have hsparse : ¬ ((d.GetOkExists ("settings.0." ++ k)).2 = false ∧ flattenAll = false) := by
    rcases hset with h | h <;> simp [h]
  have hnn : ¬ (k = "minify" ∨ k = "mobile_redirect" ∨ k = "security_header") := by
    intro h
    rw [(nestedNames_elem k).mpr h] at hn
    simp at hn
  have h1 : ¬ (k = "minify" ∨ k = "mobile_redirect") := fun h =>
    hnn (h.elim Or.inl (fun h => Or.inr (Or.inl h)))
  have h2 : ¬ (k = "security_header") := fun h => hnn (Or.inr (Or.inr h))
  rcases hv with ⟨x, rfl⟩ | ⟨x, rfl⟩ <;>
    simp only [flattenZoneSettings, flattenLoop, hloc, hin, hsparse, h1, h2, if_true, if_false,
      Cfg.set, List.filter_nil] <;> simp

theorem flatten_one_float (d : ResourceData) (flattenAll editable : Bool) (k : String)
    (q : ℚ) (hk : k ∈ schemaKeys) (hn : nestedNames.elem k = false)
    (hset : flattenAll = true ∨ (d.GetOkExists ("settings.0." ++ k)).2 = true) :
    flattenZoneSettings d [{ ID := wireID k, Editable := editable, Value := .float q }] flattenAll
      = .ok [(k, .int (intOfFloat q))] := by
  have hloc := localName_wireID k hk
  have hin := (settingInSchema_iff k).mpr hk
  have hsparse : ¬ ((d.GetOkExists ("settings.0." ++ k)).2 = false ∧ flattenAll = false) := by
    rcases hset with h | h <;> simp [h]
  have hnn : ¬ (k = "minify" ∨ k = "mobile_redirect" ∨ k = "security_header") := by
    intro h
    rw [(nestedNames_elem k).mpr h] at hn
    simp at hn
  have h1 : ¬ (k = "minify" ∨ k = "mobile_redirect") := fun h =>
    hnn (h.elim Or.inl (fun h => Or.inr (Or.inl h)))
  have h2 : ¬ (k = "security_header") := fun h => hnn (Or.inr (Or.inr h))
  simp only [flattenZoneSettings, flattenLoop, hloc, hin, hsparse, h1, h2, if_true, if_false,
    Cfg.set, List.filter_nil]
  simp

/-- C7, counterexample: the value that the encoder returns for `browser_cache_ttl = 14400` is
the Go `int` 14400, and the decoder, given the remote setting with that identifier and that
value, recognises no `int` and returns a map without the key; and for `webp = "on"` with
`polish` not set the encoder returns the nil value, so that there is no wire setting to
decode. -/
theorem C7_round_trip_fails :
    validLocal "browser_cache_ttl" (.int 14400) = true ∧
    expandZoneSetting dUnchanged (keyFormat "settings") "browser_cache_ttl" (.int 14400) []
      = .ok (.ok (.int 14400)) ∧
    flattenZoneSettings dUnchanged
        [{ ID := "browser_cache_ttl", Editable := true, Value := .int 14400 }] true
      = .ok [] ∧
    validLocal "webp" (.str "on") = true ∧
    dUnchanged.Get (keyFormat "settings" "polish") = .str "" ∧
    expandZoneSetting dUnchanged (keyFormat "settings") "webp" (.str "on") []
      = .ok (.ok .null) := by
  decide

/-- C7, amended: for every registry name `k` and every local value `v` of the shape the schema
declares for `k`, when `k` is not read-only and, for `webp`, the sibling `polish` is on, the
encoder `expandZoneSetting` produces a wire value `w`. When `v` is a string, a list of strings
or the list of one nested object, `flattenZoneSettings` applied to the remote setting with the
wire identifier of `k` and the value `w` yields `v` under the name `k`. When `v` is an integer
`n`, `w` is the Go `int` `n`, and it is the remote setting whose value is the `float64` equal
to `n` that yields `v` under the name `k`. The decoder is run in any resource data with
`flattenAll`, or without it where `k` is set. -/
theorem C7_codec_round_trip (k : String) (v : Value) (d : ResourceData) (settingsKey : String)
    (ro : List String) (d1 : ResourceData) (flattenAll editable : Bool)
    (hk : k ∈ schemaKeys) (hv : validLocal k v = true)
    (hro : contains ro k = false)
    (hpolish : k = "webp" → polishOn d settingsKey)
    (hset : flattenAll = true ∨ (d1.GetOkExists ("settings.0." ++ k)).2 = true) :
    ∃ w, expandZoneSetting d (keyFormat settingsKey) k v ro = .ok (.ok w) ∧ w ≠ .null ∧
      ((∀ n, v ≠ .int n) →
        ∃ cfg, flattenZoneSettings d1 [{ ID := wireID k, Editable := editable, Value := w }]
            flattenAll = .ok cfg ∧
          cfg.lookup k = some v) ∧
      (∀ n : Int, v = .int n → w = .int n ∧
        ∃ cfg, flattenZoneSettings d1
            [{ ID := wireID k, Editable := editable, Value := .float (n : ℚ) }]
            flattenAll = .ok cfg ∧
          cfg.lookup k = some v) := by
  by_cases hn : nestedNames.elem k = true
  · obtain ⟨m, rfl⟩ := validLocal_nested k v hn hv
    rcases (nestedNames_elem k).mp hn with h | h | h
    · subst h
      refine ⟨.map m, by simp [expandZoneSetting, hro], by simp,
        fun _ => ⟨_, flatten_one_nested d1 flattenAll editable _ m hk (Or.inl rfl) hset, ?_⟩,
        fun n hn => by simp at hn⟩
      simp [List.lookup]
    · subst h
      refine ⟨.map m, by simp [expandZoneSetting, hro], by simp,
        fun _ => ⟨_, flatten_one_nested d1 flattenAll editable _ m hk (Or.inr rfl) hset, ?_⟩,
        fun n hn => by simp at hn⟩
      simp [List.lookup]
    · subst h
      refine ⟨.map [("strict_transport_security", .map m)],
        by simp [expandZoneSetting, hro], by simp,
        fun _ => ⟨_, flatten_one_security_header d1 flattenAll editable m hset, ?_⟩,
        fun n hn => by simp at hn⟩
      simp [List.lookup]
  · have hn0 : nestedNames.elem k = false := by simpa using hn
    have hnn : ¬ (k = "minify" ∨ k = "mobile_redirect" ∨ k = "security_header") := by
      intro h
      exact hn ((nestedNames_elem k).mpr h)
    have h1 : ¬ (k = "minify" ∨ k = "mobile_redirect") := fun h =>
      hnn (h.elim Or.inl (fun h => Or.inr (Or.inl h)))
    have h2 : ¬ (k = "security_header") := fun h => hnn (Or.inr (Or.inr h))
    have hshape := validLocal_plain k v hv
    have hnull : v ≠ .null := by
      rcases hshape with ⟨x, rfl⟩ | ⟨x, rfl, _⟩ | ⟨x, rfl⟩ <;> simp
    have henc : expandZoneSetting d (keyFormat settingsKey) k v ro = .ok (.ok v) := by
      by_cases hw : k = "webp"
      · obtain ⟨p, hp, hp1, hp2⟩ := hpolish hw
        subst hw
        simp [expandZoneSetting, hro, hp, hp1, hp2]
      · simp [expandZoneSetting, hro, hw, h1, h2]
    refine ⟨v, henc, hnull, ?_, ?_⟩
    · intro hnot
      have hshape1 : (∃ s, v = .str s) ∨ (∃ xs, v = .list xs) := by
        rcases hshape with h | ⟨x, hx, _⟩ | h
        · exact Or.inl h
        · exact absurd hx (hnot x)
        · exact Or.inr h
      refine ⟨_, flatten_one_plain d1 flattenAll editable k v hk hn0 hshape1 hset, ?_⟩
      simp [List.lookup]
    · intro n hvn
      have hbound : n.natAbs ≤ 2 ^ 53 := by
        rcases hshape with ⟨x, hx⟩ | ⟨x, hx, hb⟩ | ⟨x, hx⟩
        · rw [hx] at hvn; simp at hvn
        · rw [hx] at hvn
          have : x = n := by simpa using hvn
          rw [← this]
          exact hb
        · rw [hx] at hvn; simp at hvn
      refine ⟨hvn, _, flatten_one_float d1 flattenAll editable k (n : ℚ) hk hn0 hset, ?_⟩
      rw [intOfFloat_intCast n hbound, hvn]
      simp [List.lookup]

/-- C7, witness: the round trip of `webp` with `polish` on, of `zero_rtt`, of the security
header, and of the integer 14400 through the `float64` 14400. -/
theorem C7_codec_round_trip_witness :
    (∃ cfg, flattenZoneSettings dWebpPolishOn
        [{ ID := wireID "webp", Editable := true, Value := .str "on" }] false = .ok cfg ∧
      cfg.lookup "webp" = some (.str "on")) ∧
    (∃ cfg, flattenZoneSettings dUnchanged
        [{ ID := wireID "zero_rtt", Editable := true, Value := .str "on" }] true = .ok cfg ∧
      cfg.lookup "zero_rtt" = some (.str "on")) ∧
    (∃ cfg, flattenZoneSettings dUnchanged
        [{ ID := wireID "security_header", Editable := true,
           Value := .map [("strict_transport_security",
             .map [("enabled", .bool true), ("max_age", .int 86400)])] }] true = .ok cfg ∧
      cfg.lookup "security_header"
        = some (.list [.map [("enabled", .bool true), ("max_age", .int 86400)]])) ∧
    (∃ cfg, flattenZoneSettings dUnchanged
        [{ ID := wireID "browser_cache_ttl", Editable := true,
           Value := .float ((14400 : Int) : ℚ) }] false = .ok cfg ∧
      cfg.lookup "browser_cache_ttl" = some (.int 14400)) := by
  obtain ⟨w1, h1, _, h1a, _⟩ := C7_codec_round_trip "webp" (.str "on") dWebpPolishOn "settings"
    [] dWebpPolishOn false true (by decide) (by decide) (by decide)
    (fun _ => ⟨"lossless", by decide, by decide, by decide⟩) (Or.inr (by decide))
  obtain ⟨w2, h2, _, h2a, _⟩ := C7_codec_round_trip "zero_rtt" (.str "on") dUnchanged "settings"
    [] dUnchanged true true (by decide) (by decide) (by decide)
    (fun h => absurd h (by decide)) (Or.inl rfl)
  obtain ⟨w3, h3, _, h3a, _⟩ := C7_codec_round_trip "security_header"
    (.list [.map [("enabled", .bool true), ("max_age", .int 86400)]]) dUnchanged "settings" []
    dUnchanged true true (by decide) (by decide) (by decide)
    (fun h => absurd h (by decide)) (Or.inl rfl)
  obtain ⟨w4, _, _, _, h4b⟩ := C7_codec_round_trip "browser_cache_ttl" (.int 14400) dUnchanged
    "settings" [] dUnchanged false true (by decide) (by decide) (by decide)
    (fun h => absurd h (by decide)) (Or.inr (by decide))
  have e1 : w1 = .str "on" := by
    have : expandZoneSetting dWebpPolishOn (keyFormat "settings") "webp" (.str "on") []
        = .ok (.ok (.str "on")) := by decide
    rw [this] at h1
    simpa using h1.symm
  have e2 : w2 = .str "on" := by
    have : expandZoneSetting dUnchanged (keyFormat "settings") "zero_rtt" (.str "on") []
        = .ok (.ok (.str "on")) := by decide
    rw [this] at h2
    simpa using h2.symm
  have e3 : w3 = .map [("strict_transport_security",
      .map [("enabled", .bool true), ("max_age", .int 86400)])] := by
    have : expandZoneSetting dUnchanged (keyFormat "settings") "security_header"
        (.list [.map [("enabled", .bool true), ("max_age", .int 86400)]]) []
        = .ok (.ok (.map [("strict_transport_security",
            .map [("enabled", .bool true), ("max_age", .int 86400)])])) := by decide
    rw [this] at h3
    simpa using h3.symm
  subst e1 e2 e3
  exact ⟨h1a (by simp), h2a (by simp), h3a (by simp), (h4b 14400 rfl).2⟩

/-! ### The coupling of webp and polish -/

theorem expandZoneSetting_webp_inv (d : ResourceData) (settingsKey : String) (v w : Value)
    (ro : List String)
    (h : expandZoneSetting d (keyFormat settingsKey) "webp" v ro = .ok (.ok w))
    (hw : w ≠ .null) : polishOn d settingsKey := by
  unfold expandZoneSetting at h
  split at h
  · simp at h
  · rw [if_pos rfl] at h
    split at h
    · rename_i p hp
      split at h
      · rename_i hon
        exact ⟨p, hp, hon.1, hon.2⟩
      · simp at h
        exact absurd h.symm hw
    · simp at h

theorem expandZoneSetting_webp_off (d : ResourceData) (settingsKey : String) (v : Value)
    (ro : List String) (p : String) (hp : d.Get (keyFormat settingsKey "polish") = .str p)
    (hoff : p = "" ∨ p = "off") (hro : contains ro "webp" = false) :
    expandZoneSetting d (keyFormat settingsKey) "webp" v ro = .ok (.ok .null) := by
  have hn : ¬ (p ≠ "" ∧ p ≠ "off") := by
    rintro ⟨h1, h2⟩
    rcases hoff with h | h
    · exact h1 h
    · exact h2 h
  simp only [expandZoneSetting, hro, hp, if_true, if_neg hn]
  simp

theorem wireID_eq_webp (k : String) (h : wireID k = "webp") : k = "webp" := by
  unfold wireID at h
  split at h
  · exact absurd h (by decide)
  · exact h

theorem expandOverriddenLoop_webp (d : ResourceData) (settingsKey : String) (ro : List String) :
    ∀ (order : List String) (acc zs : List ZoneSetting) (e : Option Error),
      (∀ z ∈ acc, z.ID = "webp" → polishOn d settingsKey) →
      expandOverriddenLoop d settingsKey ro order acc = .ok (zs, e) →
      ∀ z ∈ zs, z.ID = "webp" → polishOn d settingsKey := by
  intro order
  induction order with
  | nil =>
    intro acc zs e hacc h
    simp [expandOverriddenLoop] at h
    rw [← h.1]
    exact hacc
  | cons k rest ih =>
    intro acc zs e hacc h
    unfold expandOverriddenLoop at h
    split at h
    · split at h
      · simp at h
      · simp at h
        rw [← h.1]
        exact hacc
      · rename_i w hexp
        split at h
        · rename_i hw
          apply ih _ zs e _ h
          intro z hz hid
          rcases List.mem_append.mp hz with hz | hz
          · exact hacc z hz hid
          · simp at hz
            rw [hz] at hid
            have hk : k = "webp" := wireID_eq_webp k hid
            subst hk
            exact expandZoneSetting_webp_inv d settingsKey _ w ro hexp hw
        · exact ih _ zs e hacc h
    · exact ih _ zs e hacc h

theorem expandRevertibleLoop_webp (d : ResourceData) (ro : List String) :
    ∀ (order : List String) (acc zs : List ZoneSetting) (e : Option Error),
      (∀ z ∈ acc, z.ID = "webp" → polishOn d "initial_settings") →
      expandRevertibleLoop d ro order acc = .ok (zs, e) →
      ∀ z ∈ zs, z.ID = "webp" → polishOn d "initial_settings" := by
  intro order
  induction order with
  | nil =>
    intro acc zs e hacc h
    simp [expandRevertibleLoop] at h
    rw [← h.1]
    exact hacc
  | cons k rest ih =>
    intro acc zs e hacc h
    unfold expandRevertibleLoop at h
    split at h
    · split at h
      · simp at h
      · simp at h
        rw [← h.1]
        exact hacc
      · rename_i w hexp
        split at h
        · rename_i hw
          apply ih _ zs e _ h
          intro z hz hid
          rcases List.mem_append.mp hz with hz | hz
          · exact hacc z hz hid
          · simp at hz
            rw [hz] at hid
            have hk : k = "webp" := wireID_eq_webp k hid
            subst hk
            exact expandZoneSetting_webp_inv d "initial_settings" _ w ro hexp hw
        · exact ih _ zs e hacc h
    · exact ih _ zs e hacc h

/-- C8: a write-set returned by `expandOverriddenZoneSettings` holds an entry `webp` only if
`polish` of the settings is a string other than "" and "off", and a write-set returned by
`expandRevertibleZoneSettings` only if `polish` of the baseline is; when the sibling `polish`
is "" or "off" and `webp` is not read-only, the encoder returns the nil value and no error
for `webp`, which the loops do not append. -/
theorem C8_webp_write_coupling (order : List String) (d : ResourceData) (ro : List String) :
    (∀ zs e, expandOverriddenZoneSettings order d "settings" ro = .ok (zs, e) →
      (∃ z ∈ zs, z.ID = "webp") → polishOn d "settings") ∧
    (∀ zs e, expandRevertibleZoneSettings order d ro = .ok (zs, e) →
      (∃ z ∈ zs, z.ID = "webp") → polishOn d "initial_settings") ∧
    (∀ settingsKey v p, d.Get (keyFormat settingsKey "polish") = .str p →
      p = "" ∨ p = "off" → contains ro "webp" = false →
      expandZoneSetting d (keyFormat settingsKey) "webp" v ro = .ok (.ok .null)) := by
  refine ⟨?_, ?_, ?_⟩
  · rintro zs e h ⟨z, hz, hid⟩
    exact expandOverriddenLoop_webp d "settings" ro order [] zs e (by simp) h z hz hid
  · rintro zs e h ⟨z, hz, hid⟩
    exact expandRevertibleLoop_webp d ro order [] zs e (by simp) h z hz hid
  · intro settingsKey v p hp hoff hro
    exact expandZoneSetting_webp_off d settingsKey v ro p hp hoff hro

/-- C8, witness: with `polish` "lossless" the write-set of `dWebpPolishOn` holds `webp`; with
`polish` unset the encoder drops `webp`. -/
theorem C8_webp_write_coupling_witness :
    polishOn dWebpPolishOn "settings" ∧ polishOn dWebpPolishOn "initial_settings" ∧
    expandZoneSetting dUnchanged (keyFormat "settings") "webp" (.str "on") ["cache_level"]
      = .ok (.ok .null) :=
  ⟨(C8_webp_write_coupling schemaKeys dWebpPolishOn []).1
      [{ ID := "webp", Editable := false, Value := .str "on" }] none
      (by set_option maxRecDepth 100000 in decide) ⟨_, List.mem_singleton.mpr rfl, rfl⟩,
   (C8_webp_write_coupling schemaKeys dWebpPolishOn []).2.1
      [{ ID := "webp", Editable := false, Value := .str "off" }] none
      (by set_option maxRecDepth 100000 in decide) ⟨_, List.mem_singleton.mpr rfl, rfl⟩,
   (C8_webp_write_coupling schemaKeys dUnchanged ["cache_level"]).2.2 "settings" (.str "on") ""
      (by decide) (Or.inl rfl) (by decide)⟩

theorem Cfg.lookup_filter_ne (cfg : Cfg) (k k1 : String) (h : k ≠ k1) :
    (cfg.filter fun e => e.1 != k1).lookup k = cfg.lookup k := by
  induction cfg with
  | nil => rfl
  | cons e rest ih =>
    obtain ⟨a, b⟩ := e
    by_cases ha : a = k1
    · subst ha
      have hka : (k == a) = false := by simpa using h
      simp [List.filter, List.lookup, hka, ih]
    · have : (a != k1) = true := by simpa using ha
      simp only [List.filter, this, List.lookup]
      rw [ih]

theorem Cfg.lookup_set_other (cfg : Cfg) (k k1 : String) (v : Value) (h : k ≠ k1) :
    (cfg.set k1 v).lookup k = cfg.lookup k := by
  have hk : (k == k1) = false := by simpa using h
  simp only [Cfg.set, List.lookup, hk]
  exact Cfg.lookup_filter_ne cfg k k1 h

/-- C9: let the remote settings decode to `newZoneSettings` and the stored local `webp` be the
string `webp`. If the decoded settings have no `polish`, or `polish` is "" or "off", the
settings stored by the read have `webp` equal to the stored local value and every other
name as decoded, whatever the remote reported for `webp`; if the decoded `polish` is a
string other than "" and "off", the stored settings are the decoded ones. -/
theorem C9_webp_read_coupling (d : ResourceData) (result : List ZoneSetting)
    (newZoneSettings : Cfg) (webp : String)
    (hflat : flattenZoneSettings d result false = .ok newZoneSettings)
    (hwebp : d.Get "settings.0.webp" = .str webp) :
    ((newZoneSettings.lookup "polish" = none ∨
        newZoneSettings.lookup "polish" = some (.str "") ∨
        newZoneSettings.lookup "polish" = some (.str "off")) →
      ∃ stored, resourceCloudflareZoneSettingsOverrideRead d result = .ok stored ∧
        stored.lookup "webp" = some (.str webp) ∧
        ∀ k, k ≠ "webp" → stored.lookup k = newZoneSettings.lookup k) ∧
    (∀ polish, newZoneSettings.lookup "polish" = some (.str polish) →
      polish ≠ "" → polish ≠ "off" →
      resourceCloudflareZoneSettingsOverrideRead d result = .ok newZoneSettings) := by
  constructor
  · intro hp
    refine ⟨newZoneSettings.set "webp" (.str webp), ?_, Cfg.lookup_set_self _ _ _,
      fun k hk => Cfg.lookup_set_other _ _ _ _ hk⟩
    unfold resourceCloudflareZoneSettingsOverrideRead
    rw [hflat]
    rcases hp with h | h | h
    · simp only [h, hwebp]
    · simp only [h, hwebp]
      simp
    · simp only [h, hwebp]
      simp
  · intro polish hp h1 h2
    unfold resourceCloudflareZoneSettingsOverrideRead
    rw [hflat]
    simp only [hp]
    simp [h1, h2]

/-- C9, witness: the stored `webp` is "on", the remote reports `polish` "off" and `webp`
"off", and the read stores `webp` "on". -/
theorem C9_webp_read_coupling_witness :
    ∃ stored, resourceCloudflareZoneSettingsOverrideRead dReadWebp remotePolishOff = .ok stored ∧
      stored.lookup "webp" = some (.str "on") ∧
      ∀ k, k ≠ "webp" →
        stored.lookup k
          = List.lookup k [("webp", Value.str "off"), ("polish", Value.str "off")] :=
  (C9_webp_read_coupling dReadWebp remotePolishOff
    [("webp", .str "off"), ("polish", .str "off")] "on" (by decide) (by decide)).1
    (Or.inr (Or.inr (by decide)))

/-! ### Completeness of the revert write-set -/

/-- C10, counterexample: `browser_cache_ttl` is set to 0, its baseline is 14400 and nothing is
read-only, yet the revert write-set is empty. -/
theorem C10_zero_current_not_reverted :
    (dZeroCurrent.GetOkExists "settings.0.browser_cache_ttl") = (.int 0, true) ∧
    dZeroCurrent.Get "initial_settings.0.browser_cache_ttl" = .int 14400 ∧
    schemaValueEquals (dZeroCurrent.Get "initial_settings.0.browser_cache_ttl")
      (dZeroCurrent.Get "settings.0.browser_cache_ttl") = false ∧
    expandRevertibleZoneSettings schemaKeys dZeroCurrent [] = .ok ([], none) := by
  set_option maxRecDepth 100000 in decide

theorem expandRevertibleLoop_complete (d : ResourceData) (ro : List String)
    (ht : RevertTyped d) :
    ∀ (order : List String) (acc : List ZoneSetting),
      (∀ k1 ∈ order, (d.GetOk ("settings.0." ++ k1)).2 = true →
        schemaValueEquals (d.Get ("initial_settings.0." ++ k1))
          (d.GetOk ("settings.0." ++ k1)).1 = false →
        contains ro (wireID k1) = false) →
      ∃ zs, expandRevertibleLoop d ro order acc = .ok (zs, none) ∧ (∀ z ∈ acc, z ∈ zs) ∧
        ∀ k ∈ order, (d.GetOk ("settings.0." ++ k)).2 = true →
          schemaValueEquals (d.Get ("initial_settings.0." ++ k))
            (d.GetOk ("settings.0." ++ k)).1 = false →
          ∀ w, expandZoneSetting d (keyFormat "initial_settings") (wireID k)
              (d.Get ("initial_settings.0." ++ k)) ro = .ok (.ok w) →
            w ≠ .null → { ID := wireID k, Editable := false, Value := w } ∈ zs := by
  intro order
  induction order with
  | nil =>
    intro acc _
    exact ⟨acc, rfl, fun z hz => hz, fun k hk => by simp at hk⟩
  | cons k0 rest ih =>
    intro acc hno
    have hno1 : ∀ k1 ∈ rest, (d.GetOk ("settings.0." ++ k1)).2 = true →
        schemaValueEquals (d.Get ("initial_settings.0." ++ k1))
          (d.GetOk ("settings.0." ++ k1)).1 = false →
        contains ro (wireID k1) = false :=
      fun k1 hk1 => hno k1 (List.mem_cons_of_mem _ hk1)
    unfold expandRevertibleLoop
    split
    · rename_i hcond
      obtain ⟨r, hr⟩ := expandZoneSetting_total d (keyFormat "initial_settings") (wireID k0)
        (d.Get ("initial_settings.0." ++ k0)) ro ht.polish
        (fun h => ht.nested k0 (wireID_nested k0 h))
      have hr1 := hr
      simp only [wireID] at hr1
      rw [hr1]
      cases r with
      | error e =>
        have hinv := expandZoneSetting_error_inv _ _ _ _ _ _ hr
        rw [hno k0 (by simp) hcond.1 hcond.2] at hinv
        simp at hinv
      | ok w0 =>
        simp only
        split
        · obtain ⟨zs, hzs, hsub, hall⟩ := ih
            (acc ++ [{ ID := if k0 = "zero_rtt" then "0rtt" else k0, Editable := false,
                       Value := w0 }]) hno1
          refine ⟨zs, hzs, fun z hz => hsub z (List.mem_append_left _ hz), ?_⟩
          intro k hk hset hdiff w hw hne
          rcases List.mem_cons.mp hk with h | h
          · subst h
            rw [hr] at hw
            have hw0 : w0 = w := by simpa using hw
            subst hw0
            exact hsub _ (by simp [wireID])
          · exact hall k h hset hdiff w hw hne
        · rename_i hnull
          obtain ⟨zs, hzs, hsub, hall⟩ := ih acc hno1
          refine ⟨zs, hzs, hsub, ?_⟩
          intro k hk hset hdiff w hw hne
          rcases List.mem_cons.mp hk with h | h
          · subst h
            rw [hr] at hw
            have hw0 : w0 = w := by simpa using hw
            subst hw0
            exact absurd hne hnull
          · exact hall k h hset hdiff w hw hne
    · rename_i hcond
      obtain ⟨zs, hzs, hsub, hall⟩ := ih acc hno1
      refine ⟨zs, hzs, hsub, ?_⟩
      intro k hk hset hdiff w hw hne
      rcases List.mem_cons.mp hk with h | h
      · subst h
        exact absurd ⟨hset, hdiff⟩ hcond
      · exact hall k h hset hdiff w hw hne

/-- C10, amended: let `k` be a name yielded by the range whose current value is set to a value
other than the zero value (`d.GetOk` reports it) and differs from its baseline, and let no
such name have its wire identifier in the read-only set. Then `expandRevertibleZoneSettings`
returns a write-set without error, the encoder gives a value `w` for the baseline of `k`,
which is the baseline itself unless `k` is `webp` or one of the three nested names, and
unless `w` is the nil value the write-set holds the entry with the wire identifier of `k`
and the value `w`. -/
theorem C10_revert_completeness (order : List String) (d : ResourceData) (ro : List String)
    (k : String) (ht : RevertTyped d) (hk : k ∈ order)
    (hset : (d.GetOk ("settings.0." ++ k)).2 = true)
    (hdiff : schemaValueEquals (d.Get ("initial_settings.0." ++ k))
      (d.GetOk ("settings.0." ++ k)).1 = false)
    (hno : ∀ k1 ∈ order, (d.GetOk ("settings.0." ++ k1)).2 = true →
      schemaValueEquals (d.Get ("initial_settings.0." ++ k1))
        (d.GetOk ("settings.0." ++ k1)).1 = false →
      contains ro (wireID k1) = false) :
    ∃ zs w, expandRevertibleZoneSettings order d ro = .ok (zs, none) ∧
      expandZoneSetting d (keyFormat "initial_settings") (wireID k)
        (d.Get ("initial_settings.0." ++ k)) ro = .ok (.ok w) ∧
      (k ≠ "webp" → nestedNames.elem k = false → w = d.Get ("initial_settings.0." ++ k)) ∧
      (w ≠ .null → { ID := wireID k, Editable := false, Value := w } ∈ zs) := by
  obtain ⟨zs, hzs, _, hall⟩ := expandRevertibleLoop_complete d ro ht order [] hno
  obtain ⟨r, hr⟩ := expandZoneSetting_total d (keyFormat "initial_settings") (wireID k)
    (d.Get ("initial_settings.0." ++ k)) ro ht.polish
    (fun h => ht.nested k (wireID_nested k h))
  cases r with
  | error e =>
    have hinv := expandZoneSetting_error_inv _ _ _ _ _ _ hr
    rw [hno k hk hset hdiff] at hinv
    simp at hinv
  | ok w =>
    refine ⟨zs, w, hzs, hr, ?_, fun hne => hall k hk hset hdiff w hr hne⟩
    intro hwebp hnested
    have hnn : ¬ (k = "minify" ∨ k = "mobile_redirect" ∨ k = "security_header") := by
      intro h
      rw [(nestedNames_elem k).mpr h] at hnested
      simp at hnested
    have h0 : ¬ (wireID k = "webp") := fun h => hwebp (wireID_eq_webp k h)
    have h1 : ¬ (wireID k = "minify" ∨ wireID k = "mobile_redirect") := fun h =>
      hnn (wireID_nested k (h.elim Or.inl (fun h => Or.inr (Or.inl h))))
    have h2 : ¬ (wireID k = "security_header") := fun h =>
      hnn (wireID_nested k (Or.inr (Or.inr h)))
    have hro := hno k hk hset hdiff
    simp only [expandZoneSetting, hro, h0, h1, h2, if_false] at hr
    simpa using hr.symm

theorem dThreeKinds_typed : RevertTyped dThreeKinds where
  polish := ⟨"", by decide⟩
  nested := by
    intro k hk
    rcases hk with h | h | h <;> subst h <;> decide

/-- C10, witness: in `dThreeKinds` the current `cache_level` is "aggressive" and its baseline
"basic"; with `ssl` read-only and unchanged the revert write-set holds `cache_level`. -/
theorem C10_revert_completeness_witness :
    ∃ zs w, expandRevertibleZoneSettings schemaKeys dThreeKinds ["ssl"] = .ok (zs, none) ∧
      expandZoneSetting dThreeKinds (keyFormat "initial_settings") (wireID "cache_level")
        (dThreeKinds.Get ("initial_settings.0." ++ "cache_level")) ["ssl"] = .ok (.ok w) ∧
      ("cache_level" ≠ "webp" → nestedNames.elem "cache_level" = false →
        w = dThreeKinds.Get ("initial_settings.0." ++ "cache_level")) ∧
      (w ≠ .null →
        { ID := wireID "cache_level", Editable := false, Value := w } ∈ zs) :=
  C10_revert_completeness schemaKeys dThreeKinds ["ssl"] "cache_level" dThreeKinds_typed
    (by decide) (by decide) (by decide) (by set_option maxRecDepth 100000 in decide)

/-! ### The read-only check of the apply -/

theorem expandOverriddenLoop_readOnly (d : ResourceData) (ro : List String)
    (ht : ApplyTyped d) (k : String)
    (hset : (d.GetOkExists (keyFormat "settings" k)).2 = true)
    (hchg : d.HasChange (keyFormat "settings" k) = true)
    (hro : contains ro k = true) :
    ∀ (order : List String) (acc : List ZoneSetting), k ∈ order →
      ∃ zs k1 v1, expandOverriddenLoop d "settings" ro order acc
          = .ok (zs, some (.readOnly k1 v1)) ∧ contains ro k1 = true := by
  intro order
  induction order with
  | nil => intro acc hk; simp at hk
  | cons k0 rest ih =>
    intro acc hk
    unfold expandOverriddenLoop
    split
    · obtain ⟨r, hr⟩ := expandZoneSetting_total d (keyFormat "settings") k0
        (d.GetOkExists (keyFormat "settings" k0)).1 ro ht.polish (fun h => ht.nested k0 h)
      rw [hr]
      cases r with
      | error e =>
        have hinv := expandZoneSetting_error_inv _ _ _ _ _ _ hr
        simp only
        exact ⟨acc, _, _, by rw [hinv.2], hinv.1⟩
      | ok w =>
        have hne : k ≠ k0 := by
          intro h
          subst h
          rw [expandZoneSetting_readOnly d _ k _ ro hro] at hr
          simp at hr
        have hkr : k ∈ rest := by
          rcases List.mem_cons.mp hk with h | h
          · exact absurd h hne
          · exact h
        simp only
        split
        · exact ih _ hkr
        · exact ih _ hkr
    · rename_i hcond
      have hne : k ≠ k0 := by
        intro h
        apply hcond
        rw [← h]
        exact ⟨hset, hchg⟩
      have hkr : k ∈ rest := by
        rcases List.mem_cons.mp hk with h | h
        · exact absurd h hne
        · exact h
      exact ih _ hkr

/-- The apply fails when a name that is set and changed is, under its registry name, in the
list of read-only names: the read-only error is returned and the update makes no write
call. -/
theorem expandOverridden_readOnly_error (order : List String) (d : ResourceData)
    (ht : ApplyTyped d) (k : String) (hk : k ∈ order)
    (hset : (d.GetOkExists (keyFormat "settings" k)).2 = true)
    (hchg : d.HasChange (keyFormat "settings" k) = true)
    (hro : contains (expandInterfaceToStringList (d.Get "readonly_settings")) k = true) :
    (∃ zs k1 v1, expandOverriddenZoneSettings order d "settings"
        (expandInterfaceToStringList (d.Get "readonly_settings"))
          = .ok (zs, some (.readOnly k1 v1)) ∧
        contains (expandInterfaceToStringList (d.Get "readonly_settings")) k1 = true) ∧
    ∀ client : Client, (resourceCloudflareZoneSettingsOverrideUpdate order d client).2 = [] := by
  have h := expandOverriddenLoop_readOnly d _ ht k hset hchg hro order [] hk
  refine ⟨h, fun client => ?_⟩
  obtain ⟨zs, k1, v1, hexp, _⟩ := h
  unfold resourceCloudflareZoneSettingsOverrideUpdate expandOverriddenZoneSettings
  rw [hexp]
  cases settingsGiven d with
  | error c => rfl
  | ok given => cases given <;> rfl

/-! ### Revert of a state that equals the baseline -/

theorem expandRevertibleLoop_unchanged (d : ResourceData) (ro : List String) :
    ∀ (order : List String) (acc : List ZoneSetting),
      (∀ k ∈ order, (d.GetOk ("settings.0." ++ k)).2 = true →
        schemaValueEquals (d.Get ("initial_settings.0." ++ k))
          (d.GetOk ("settings.0." ++ k)).1 = true) →
      expandRevertibleLoop d ro order acc = .ok (acc, none) := by
  intro order
  induction order with
  | nil => intro acc _; rfl
  | cons k rest ih =>
    intro acc h
    unfold expandRevertibleLoop
    have hk : ¬ ((d.GetOk ("settings.0." ++ k)).2 = true ∧
        schemaValueEquals (d.Get ("initial_settings.0." ++ k))
          (d.GetOk ("settings.0." ++ k)).1 = false) := by
      rintro ⟨h1, h2⟩
      rw [h k (by simp) h1] at h2
      cases h2
    rw [if_neg hk]
    exact ih acc (fun k1 hk1 => h k1 (by simp [hk1]))

theorem writeZoneSettings_nil (client : Client) (zoneID : String) :
    writeZoneSettings [] client zoneID = (.ok none, []) := by
  simp [writeZoneSettings, updateSingleZoneSettings, updateSingleLoop, cutLoop,
    updateUniversalSSLSetting, universalSSLLoop]

/-- C11, counterexample: `universal_ssl` is "on" and has no baseline. The revert puts the
entry `universal_ssl = ""` in its write-set and makes no write call for it; the remote is
as before, the read stores `universal_ssl = "on"` again, and the revert called a second
time has the same write-set, which is not empty. -/
theorem C11_second_revert_not_empty :
    expandRevertibleZoneSettings schemaKeys dUsslNoBaseline []
      = .ok ([{ ID := "universal_ssl", Editable := false, Value := .str "" }], none) ∧
    resourceCloudflareZoneSettingsOverrideDelete schemaKeys dUsslNoBaseline okClient
      = (.ok none, []) ∧
    resourceCloudflareZoneSettingsOverrideRead dUsslNoBaseline remoteUsslOn
      = .ok [("webp", .str ""), ("universal_ssl", .str "on")] ∧
    expandRevertibleZoneSettings schemaKeys dUsslReread []
      = .ok ([{ ID := "universal_ssl", Editable := false, Value := .str "" }], none) := by
  set_option maxRecDepth 100000 in decide

/-- The revert of `dFourSet` has the write-set `h2_prioritization`, `image_resizing`, `0rtt`,
`orange_to_orange`; after the two single-fetch writes the removal loop leaves
`image_resizing` and `orange_to_orange` for the bulk write, so that `0rtt` is never written
and no error is returned. In the state that a remote storing these writes reports back, the
revert has the write-set `0rtt`. -/
theorem revert_loses_zero_rtt_example :
    expandRevertibleZoneSettings schemaKeys dFourSet []
      = .ok ([{ ID := "h2_prioritization", Editable := false, Value := .str "off" },
              { ID := "image_resizing", Editable := false, Value := .str "off" },
              { ID := "0rtt", Editable := false, Value := .str "off" },
              { ID := "orange_to_orange", Editable := false, Value := .str "off" }], none) ∧
    resourceCloudflareZoneSettingsOverrideDelete schemaKeys dFourSet okClient
      = (.ok none,
          [.UpdateZoneSingleSetting "zone" "h2_prioritization"
             { ID := "h2_prioritization", Editable := false, Value := .str "off" },
           .UpdateZoneSingleSetting "zone" "image_resizing"
             { ID := "image_resizing", Editable := false, Value := .str "off" },
           .UpdateZoneSettings "zone"
             [{ ID := "image_resizing", Editable := false, Value := .str "off" },
              { ID := "orange_to_orange", Editable := false, Value := .str "off" }]]) ∧
    expandRevertibleZoneSettings schemaKeys dFourAfter []
      = .ok ([{ ID := "0rtt", Editable := false, Value := .str "off" }], none) := by
  set_option maxRecDepth 100000 in decide

/-- C11, amended: when every registry name that is set has a current value equal to its
baseline, `expandRevertibleZoneSettings` returns the empty write-set without error, whatever
the read-only set, and the delete makes no write call and returns no error. -/
theorem C11_revert_idempotence (order : List String) (d : ResourceData) (ro : List String)
    (horder : ∀ k ∈ order, k ∈ schemaKeys)
    (h : ∀ k ∈ schemaKeys, (d.GetOk ("settings.0." ++ k)).2 = true →
      d.Get ("initial_settings.0." ++ k) = (d.GetOk ("settings.0." ++ k)).1) :
    expandRevertibleZoneSettings order d ro = .ok ([], none) ∧
    ∀ client : Client,
      (resourceCloudflareZoneSettingsOverrideDelete order d client).2 = [] ∧
      ∀ given, settingsGiven d = .ok given →
        resourceCloudflareZoneSettingsOverrideDelete order d client = (.ok none, []) := by
  have hloop : ∀ ro, expandRevertibleZoneSettings order d ro = .ok ([], none) :=
    fun ro => expandRevertibleLoop_unchanged d ro order [] (fun k hk hset => by
      simp [schemaValueEquals, h k (horder k hk) hset])
  refine ⟨hloop ro, fun client => ?_⟩
  unfold resourceCloudflareZoneSettingsOverrideDelete
  rw [hloop]
  cases hg : settingsGiven d with
  | error c => simp
  | ok given =>
    cases given <;> simp [writeZoneSettings_nil]

/-- C11, witness: in `dReverted` every current value equals its baseline. -/
theorem C11_revert_idempotence_witness :
    expandRevertibleZoneSettings schemaKeys dReverted ["cache_level"] = .ok ([], none) ∧
    ∀ client : Client,
      (resourceCloudflareZoneSettingsOverrideDelete schemaKeys dReverted client).2 = [] ∧
      ∀ given, settingsGiven dReverted = .ok given →
        resourceCloudflareZoneSettingsOverrideDelete schemaKeys dReverted client
          = (.ok none, []) :=
  C11_revert_idempotence schemaKeys dReverted ["cache_level"] (fun _ hk => hk)
    (by set_option maxRecDepth 100000 in decide)

/-! ### The read-only set -/

theorem flattenReadOnly_foldl (settings : List ZoneSetting) (ids : List String) :
    settings.foldl (fun ids zs => if zs.Editable = false then ids ++ [zs.ID] else ids) ids
      = ids ++ (settings.filter fun zs => !zs.Editable).map (·.ID) := by
  induction settings generalizing ids with
  | nil => simp
  | cons zs rest ih =>
    simp only [List.foldl_cons]
    rw [ih]
    cases h : zs.Editable <;> simp [List.filter, h]

/-- C16: `flattenReadOnlyZoneSettings` returns the identifiers of the settings that are not
editable, in the order of the input and once for each such setting; an identifier is in the
result exactly when some setting of the input with that identifier is not editable; and the
result is the empty list exactly when every setting is editable. -/
theorem C16_read_only_set (settings : List ZoneSetting) :
    flattenReadOnlyZoneSettings settings
      = (settings.filter fun zs => !zs.Editable).map (·.ID) ∧
    (∀ id, id ∈ flattenReadOnlyZoneSettings settings ↔
      ∃ zs ∈ settings, zs.ID = id ∧ zs.Editable = false) ∧
    (flattenReadOnlyZoneSettings settings = [] ↔ ∀ zs ∈ settings, zs.Editable = true) := by
  have heq : flattenReadOnlyZoneSettings settings
      = (settings.filter fun zs => !zs.Editable).map (·.ID) := by
    unfold flattenReadOnlyZoneSettings
    rw [flattenReadOnly_foldl]
    simp
  refine ⟨heq, ?_, ?_⟩
  · intro id
    rw [heq]
    simp only [List.mem_map, List.mem_filter, Bool.not_eq_true']
    constructor
    · rintro ⟨zs, ⟨hz, he⟩, hid⟩
      exact ⟨zs, hz, hid, he⟩
    · rintro ⟨zs, hz, hid, he⟩
      exact ⟨zs, ⟨hz, he⟩, hid⟩
  · rw [heq]
    simp only [List.map_eq_nil_iff, List.filter_eq_nil_iff, Bool.not_eq_true', Bool.not_eq_false]

/-- C16, witness: two settings that are not editable, one of them listed twice, and an
editable one between them. -/
theorem C16_read_only_set_witness :
    flattenReadOnlyZoneSettings remoteMixed = ["ssl", "0rtt", "ssl"] :=
  (C16_read_only_set remoteMixed).1.trans (by decide)

/-! ### Failure of a single-fetch write -/

theorem updateSingleLoop_fail (client : Client) (zoneID : String) (err : Error)
    (failing : Call) (after : List Call) :
    ∀ (zoneSettings : List ZoneSetting) (before : List Call) (i : Nat) (indexesToCut : List Nat)
      (trace : List Call),
      singleCalls zoneID zoneSettings = before ++ failing :: after →
      (∀ p c rest, before = p ++ c :: rest → client (trace ++ p) c = none) →
      client (trace ++ before) failing = some err →
      updateSingleLoop client zoneID zoneSettings i indexesToCut trace
        = (.error err, trace ++ before ++ [failing]) := by
  intro zoneSettings
  induction zoneSettings with
  | nil =>
    intro before i idx trace hcalls
    simp [singleCalls] at hcalls
  | cons s rest ih =>
    intro before i idx trace hcalls hok hfail
    unfold updateSingleLoop
    by_cases hs : contains fetchAsSingleSetting s.ID = true
    · rw [if_pos hs]
      have hc : singleCalls zoneID (s :: rest)
          = .UpdateZoneSingleSetting zoneID s.ID s :: singleCalls zoneID rest := by
        simp [singleCalls, List.filter, hs]
      rw [hc] at hcalls
      cases before with
      | nil =>
        simp only [List.nil_append, List.cons.injEq] at hcalls
        rw [← hcalls.1] at hfail
        simp only [List.append_nil] at hfail
        rw [hfail]
        simp [hcalls.1]
      | cons c before1 =>
        simp only [List.cons_append, List.cons.injEq] at hcalls
        have h0 := hok [] c before1 rfl
        simp only [List.append_nil] at h0
        rw [← hcalls.1] at h0
        rw [h0]
        simp only
        have := ih before1 (i + 1) (idx ++ [i])
          (trace ++ [.UpdateZoneSingleSetting zoneID s.ID s]) hcalls.2
          (fun p c1 rest1 hb => by
            have := hok (c :: p) c1 rest1 (by rw [hb]; rfl)
            rw [← hcalls.1] at this
            simpa using this)
          (by
            rw [← hcalls.1] at hfail
            simpa using hfail)
        rw [this, ← hcalls.1]
        simp
    · rw [if_neg hs]
      have hc : singleCalls zoneID (s :: rest) = singleCalls zoneID rest := by
        have hs0 : contains fetchAsSingleSetting s.ID = false := by simpa using hs
        simp [singleCalls, List.filter, hs0]
      rw [hc] at hcalls
      exact ih before (i + 1) idx trace hcalls hok hfail

theorem writeZoneSettings_fail (zoneSettings : List ZoneSetting) (client : Client)
    (zoneID : String) (before : List Call) (failing : Call) (after : List Call) (err : Error)
    (hcalls : singleCalls zoneID zoneSettings = before ++ failing :: after)
    (hok : ∀ p c rest, before = p ++ c :: rest → client p c = none)
    (hfail : client before failing = some err) :
    writeZoneSettings zoneSettings client zoneID = (.ok (some err), before ++ [failing]) := by
  have h := updateSingleLoop_fail client zoneID err failing after zoneSettings before 0 [] []
    hcalls (by simpa using hok) (by simpa using hfail)
  simp only [writeZoneSettings, updateSingleZoneSettings, h]
  simp

/-- C12: let the single-fetch write calls of a write-set be `before`, then `failing`, then
`after`, and let the client accept each call of `before` in turn and answer `failing` with
an error. Then the writes return that error and the write calls made are exactly those of
`before` followed by `failing`: no later single-fetch write, no toggle write, no bulk write
and no other call. So it is for the update and for the delete whenever this is the
write-set they compute. -/
theorem C12_fail_fast_dispatch (zoneSettings : List ZoneSetting) (client : Client)
    (zoneID : String) (before : List Call) (failing : Call) (after : List Call) (err : Error)
    (hcalls : singleCalls zoneID zoneSettings = before ++ failing :: after)
    (hok : ∀ p c rest, before = p ++ c :: rest → client p c = none)
    (hfail : client before failing = some err) :
    writeZoneSettings zoneSettings client zoneID = (.ok (some err), before ++ [failing]) ∧
    (∀ (order : List String) (d : ResourceData), d.Id = zoneID → settingsGiven d = .ok true →
      expandOverriddenZoneSettings order d "settings"
        (expandInterfaceToStringList (d.Get "readonly_settings")) = .ok (zoneSettings, none) →
      resourceCloudflareZoneSettingsOverrideUpdate order d client
        = (.ok (some err), before ++ [failing])) ∧
    (∀ (order : List String) (d : ResourceData), d.Id = zoneID → settingsGiven d = .ok true →
      expandRevertibleZoneSettings order d
        (expandInterfaceToStringList (d.Get "readonly_settings")) = .ok (zoneSettings, none) →
      resourceCloudflareZoneSettingsOverrideDelete order d client
        = (.ok (some err), before ++ [failing])) := by
  have hw := writeZoneSettings_fail zoneSettings client zoneID before failing after err hcalls
    hok hfail
  refine ⟨hw, ?_, ?_⟩
  · intro order d hid hgiven hexp
    simp only [resourceCloudflareZoneSettingsOverrideUpdate, hgiven, hexp, hid, hw]
  · intro order d hid hgiven hexp
    simp only [resourceCloudflareZoneSettingsOverrideDelete, hgiven, hexp, hid, hw]

/-- C12, witness: the second of three single-fetch writes of `writeSetMixed` fails; the first
two single-fetch calls are made and nothing else. -/
theorem C12_fail_fast_dispatch_witness :
    writeZoneSettings writeSetMixed clientFailsH2 "zone"
      = (.ok (some (.remote "HTTP status 500")),
          [.UpdateZoneSingleSetting "zone" "binary_ast"
             { ID := "binary_ast", Editable := false, Value := .str "on" }] ++
          [.UpdateZoneSingleSetting "zone" "h2_prioritization"
             { ID := "h2_prioritization", Editable := false, Value := .str "on" }]) :=
  (C12_fail_fast_dispatch writeSetMixed clientFailsH2 "zone"
    [.UpdateZoneSingleSetting "zone" "binary_ast"
       { ID := "binary_ast", Editable := false, Value := .str "on" }]
    (.UpdateZoneSingleSetting "zone" "h2_prioritization"
       { ID := "h2_prioritization", Editable := false, Value := .str "on" })
    [.UpdateZoneSingleSetting "zone" "early_hints"
       { ID := "early_hints", Editable := false, Value := .str "on" }]
    (.remote "HTTP status 500") (by decide)
    (by
      intro p c rest h
      cases p with
      | nil =>
        simp only [List.nil_append, List.cons.injEq] at h
        rw [← h.1]
        rfl
      | cons a p1 =>
        simp only [List.cons_append, List.cons.injEq] at h
        cases p1 <;> simp at h)
    (by decide)).1

/-- C15: at the failing input, a write-set of two single-fetch entries and a client whose
writes succeed, both single-fetch writes are made and the removal loop then slices the list
out of its bounds: the writes end in a panic. So does the update of `dOnlySingles`, which
changes these two settings only. -/
theorem C15_two_singles_panic :
    (writeSetOnlySingles.map (·.ID)).Nodup ∧
    (∀ z ∈ writeSetOnlySingles, contains fetchAsSingleSetting z.ID = true) ∧
    updateSingleLoop okClient "zone" writeSetOnlySingles 0 [] []
      = (.ok [0, 1],
          [.UpdateZoneSingleSetting "zone" "binary_ast"
             { ID := "binary_ast", Editable := false, Value := .str "on" },
           .UpdateZoneSingleSetting "zone" "h2_prioritization"
             { ID := "h2_prioritization", Editable := false, Value := .str "on" }]) ∧
    cutIndex writeSetOnlySingles 0
      = .ok [{ ID := "h2_prioritization", Editable := false, Value := .str "on" }] ∧
    cutIndex [{ ID := "h2_prioritization", Editable := false, Value := .str "on" }] 1
      = .error .sliceBounds ∧
    writeZoneSettings writeSetOnlySingles okClient "zone"
      = (.error .sliceBounds,
          [.UpdateZoneSingleSetting "zone" "binary_ast"
             { ID := "binary_ast", Editable := false, Value := .str "on" },
           .UpdateZoneSingleSetting "zone" "h2_prioritization"
             { ID := "h2_prioritization", Editable := false, Value := .str "on" }]) ∧
    resourceCloudflareZoneSettingsOverrideUpdate schemaKeys dOnlySingles okClient
      = (.error .sliceBounds,
          [.UpdateZoneSingleSetting "zone" "h2_prioritization"
             { ID := "h2_prioritization", Editable := false, Value := .str "on" },
           .UpdateZoneSingleSetting "zone" "binary_ast"
             { ID := "binary_ast", Editable := false, Value := .str "on" }]) := by
  set_option maxRecDepth 100000 in decide

/-! ### The decoder -/

theorem flattenLoop_cons (d : ResourceData) (flattenAll : Bool) (s : ZoneSetting)
    (rest : List ZoneSetting) (cfg : Cfg) :
    flattenLoop d flattenAll (s :: rest) cfg
      = match flattenStep d flattenAll s cfg with
        | .ok cfg1 => flattenLoop d flattenAll rest cfg1
        | .error c => .error c := by
  rw [flattenLoop]
  unfold flattenStep localName
  generalize (if s.ID = "0rtt" then "zero_rtt" else s.ID) = k
  split
  · rfl
  · split
    · rfl
    · split
      · split <;> rfl
      · split
        · split <;> rfl
        · split <;> rfl

theorem flattenStep_skip (d : ResourceData) (flattenAll : Bool) (s : ZoneSetting) (cfg : Cfg)
    (h : ¬ accepted d flattenAll s) : flattenStep d flattenAll s cfg = .ok cfg := by
  unfold flattenStep
  by_cases h1 : settingInSchema (localName s.ID) = false
  · rw [if_pos h1]
  · rw [if_neg h1]
    have hin : localName s.ID ∈ schemaKeys :=
      (settingInSchema_iff _).mp (by simpa using h1)
    have h2 : (d.GetOkExists ("settings.0." ++ localName s.ID)).2 = false ∧ flattenAll = false := by
      constructor
      · by_contra hc
        exact h ⟨hin, Or.inr (by simpa using hc)⟩
      · by_contra hc
        exact h ⟨hin, Or.inl (by simpa using hc)⟩
    rw [if_pos h2]

theorem flattenStep_cases (d : ResourceData) (flattenAll : Bool) (s : ZoneSetting)
    (cfg cfg1 : Cfg) (h : flattenStep d flattenAll s cfg = .ok cfg1) :
    cfg1 = cfg ∨ (accepted d flattenAll s ∧ ∃ v, cfg1 = cfg.set (localName s.ID) v) := by
  by_cases hacc : accepted d flattenAll s
  · unfold flattenStep at h
    split at h
    · exact Or.inl (by simpa using h.symm)
    · split at h
      · exact Or.inl (by simpa using h.symm)
      · split at h
        · split at h
          · exact Or.inr ⟨hacc, _, by simpa using h.symm⟩
          · simp at h
        · split at h
          · split at h
            · exact Or.inr ⟨hacc, _, by simpa using h.symm⟩
            · simp at h
          · split at h
            · exact Or.inr ⟨hacc, _, by simpa using h.symm⟩
            · exact Or.inr ⟨hacc, _, by simpa using h.symm⟩
            · exact Or.inr ⟨hacc, _, by simpa using h.symm⟩
            · exact Or.inl (by simpa using h.symm)
  · rw [flattenStep_skip d flattenAll s cfg hacc] at h
    exact Or.inl (by simpa using h.symm)

theorem flattenStep_accepted (d : ResourceData) (flattenAll : Bool) (s : ZoneSetting)
    (cfg : Cfg) (hacc : accepted d flattenAll s)
    (hrec : recognised (localName s.ID) s.Value = true) :
    ∃ v, flattenStep d flattenAll s cfg = .ok (cfg.set (localName s.ID) v) := by
  have h1 : ¬ (settingInSchema (localName s.ID) = false) := by
    rw [(settingInSchema_iff _).mpr hacc.1]
    simp
  have h2 : ¬ ((d.GetOkExists ("settings.0." ++ localName s.ID)).2 = false ∧
      flattenAll = false) := by
    rintro ⟨ha, hb⟩
    rcases hacc.2 with h | h
    · rw [h] at hb; cases hb
    · rw [h] at ha; cases ha
  unfold flattenStep
  rw [if_neg h1, if_neg h2]
  unfold recognised at hrec
  by_cases hn : nestedNames.elem (localName s.ID) = true
  · rw [if_pos hn] at hrec
    rcases (nestedNames_elem _).mp hn with h | h | h
    · rw [if_pos (Or.inl h)]
      split at hrec
      · exact ⟨_, rfl⟩
      · simp at hrec
    · rw [if_pos (Or.inr h)]
      split at hrec
      · exact ⟨_, rfl⟩
      · simp at hrec
    · have h3 : ¬ (localName s.ID = "minify" ∨ localName s.ID = "mobile_redirect") := by
        rw [h]
        decide
      rw [if_neg h3, if_pos h]
      split at hrec
      · exact ⟨_, rfl⟩
      · simp at hrec
  · rw [if_neg hn] at hrec
    have hnn : ¬ (localName s.ID = "minify" ∨ localName s.ID = "mobile_redirect" ∨
        localName s.ID = "security_header") := fun h => hn ((nestedNames_elem _).mpr h)
    have h3 : ¬ (localName s.ID = "minify" ∨ localName s.ID = "mobile_redirect") := fun h =>
      hnn (h.elim Or.inl (fun h => Or.inr (Or.inl h)))
    have h4 : ¬ (localName s.ID = "security_header") := fun h => hnn (Or.inr (Or.inr h))
    rw [if_neg h3, if_neg h4]
    split at hrec
    · exact ⟨_, rfl⟩
    · exact ⟨_, rfl⟩
    · exact ⟨_, rfl⟩
    · simp at hrec

theorem flattenStep_total (d : ResourceData) (flattenAll : Bool) (s : ZoneSetting) (cfg : Cfg)
    (h : nestedNames.elem (localName s.ID) = true → ∃ m, s.Value = .map m) :
    ∃ cfg1, flattenStep d flattenAll s cfg = .ok cfg1 := by
  unfold flattenStep
  split
  · exact ⟨_, rfl⟩
  · split
    · exact ⟨_, rfl⟩
    · split
      · rename_i hk
        obtain ⟨m, hm⟩ := h ((nestedNames_elem _).mpr
          (hk.elim Or.inl (fun h => Or.inr (Or.inl h))))
        rw [hm]
        exact ⟨_, rfl⟩
      · split
        · rename_i hk
          obtain ⟨m, hm⟩ := h ((nestedNames_elem _).mpr (Or.inr (Or.inr hk)))
          rw [hm]
          exact ⟨_, rfl⟩
        · split <;> exact ⟨_, rfl⟩

theorem Cfg.mem_set (cfg : Cfg) (k : String) (v : Value) (e : String × Value)
    (h : e ∈ cfg.set k v) : e = (k, v) ∨ e ∈ cfg := by
  unfold Cfg.set at h
  rcases List.mem_cons.mp h with h | h
  · exact Or.inl h
  · exact Or.inr (List.mem_filter.mp h).1

theorem Cfg.key_mem_set (cfg : Cfg) (k k1 : String) (v : Value)
    (h : k1 = k ∨ k1 ∈ cfg.map Prod.fst) : k1 ∈ (cfg.set k v).map Prod.fst := by
  by_cases hk : k1 = k
  · simp [Cfg.set, hk]
  · rcases h with h | h
    · exact absurd h hk
    · obtain ⟨e, he, hfst⟩ := List.mem_map.mp h
      refine List.mem_map.mpr ⟨e, ?_, hfst⟩
      unfold Cfg.set
      refine List.mem_cons_of_mem _ (List.mem_filter.mpr ⟨he, ?_⟩)
      rw [hfst]
      simpa using hk

theorem flattenLoop_mem (d : ResourceData) (flattenAll : Bool) :
    ∀ (settings : List ZoneSetting) (cfg0 cfg : Cfg),
      flattenLoop d flattenAll settings cfg0 = .ok cfg →
      ∀ e ∈ cfg, e ∈ cfg0 ∨ ∃ s ∈ settings, accepted d flattenAll s ∧ e.1 = localName s.ID := by
  intro settings
  induction settings with
  | nil =>
    intro cfg0 cfg h e he
    simp [flattenLoop] at h
    exact Or.inl (h ▸ he)
  | cons s rest ih =>
    intro cfg0 cfg h e he
    rw [flattenLoop_cons] at h
    cases hstep : flattenStep d flattenAll s cfg0 with
    | error c => rw [hstep] at h; simp at h
    | ok cfg1 =>
      rw [hstep] at h
      rcases ih cfg1 cfg h e he with h1 | ⟨s1, hs1, hacc, hk⟩
      · rcases flattenStep_cases d flattenAll s cfg0 cfg1 hstep with hc | ⟨hacc, v, hc⟩
        · exact Or.inl (hc ▸ h1)
        · rw [hc] at h1
          rcases Cfg.mem_set cfg0 _ v e h1 with h2 | h2
          · exact Or.inr ⟨s, by simp, hacc, by rw [h2]⟩
          · exact Or.inl h2
      · exact Or.inr ⟨s1, List.mem_cons_of_mem _ hs1, hacc, hk⟩

theorem flattenLoop_filter (d : ResourceData) (flattenAll : Bool) (p : ZoneSetting → Bool)
    (hp : ∀ s, p s = false → ¬ accepted d flattenAll s) :
    ∀ (settings : List ZoneSetting) (cfg0 : Cfg),
      flattenLoop d flattenAll (settings.filter p) cfg0
        = flattenLoop d flattenAll settings cfg0 := by
  intro settings
  induction settings with
  | nil => intro cfg0; rfl
  | cons s rest ih =>
    intro cfg0
    cases hs : p s with
    | true =>
      simp only [List.filter, hs]
      rw [flattenLoop_cons, flattenLoop_cons]
      cases flattenStep d flattenAll s cfg0 with
      | error c => rfl
      | ok cfg1 => exact ih cfg1
    | false =>
      simp only [List.filter, hs]
      rw [flattenLoop_cons, flattenStep_skip d flattenAll s cfg0 (hp s hs)]
      exact ih cfg0

theorem flattenLoop_total (d : ResourceData) (flattenAll : Bool) :
    ∀ (settings : List ZoneSetting) (cfg0 : Cfg),
      (∀ s ∈ settings, nestedNames.elem (localName s.ID) = true → ∃ m, s.Value = .map m) →
      ∃ cfg, flattenLoop d flattenAll settings cfg0 = .ok cfg := by
  intro settings
  induction settings with
  | nil => intro cfg0 _; exact ⟨cfg0, rfl⟩
  | cons s rest ih =>
    intro cfg0 h
    obtain ⟨cfg1, h1⟩ := flattenStep_total d flattenAll s cfg0 (h s (by simp))
    rw [flattenLoop_cons, h1]
    exact ih cfg1 (fun s1 hs1 => h s1 (List.mem_cons_of_mem _ hs1))

theorem flattenLoop_keys (d : ResourceData) (flattenAll : Bool) :
    ∀ (settings : List ZoneSetting) (cfg0 cfg : Cfg),
      flattenLoop d flattenAll settings cfg0 = .ok cfg →
      (∀ k ∈ cfg0.map Prod.fst, k ∈ cfg.map Prod.fst) ∧
      ∀ s ∈ settings, accepted d flattenAll s → recognised (localName s.ID) s.Value = true →
        localName s.ID ∈ cfg.map Prod.fst := by
  intro settings
  induction settings with
  | nil =>
    intro cfg0 cfg h
    simp [flattenLoop] at h
    subst h
    exact ⟨fun k hk => hk, fun s hs => by simp at hs⟩
  | cons s rest ih =>
    intro cfg0 cfg h
    rw [flattenLoop_cons] at h
    cases hstep : flattenStep d flattenAll s cfg0 with
    | error c => rw [hstep] at h; simp at h
    | ok cfg1 =>
      rw [hstep] at h
      obtain ⟨hmono, hrest⟩ := ih cfg1 cfg h
      have hmono0 : ∀ k ∈ cfg0.map Prod.fst, k ∈ cfg1.map Prod.fst := by
        intro k hk
        rcases flattenStep_cases d flattenAll s cfg0 cfg1 hstep with hc | ⟨_, v, hc⟩
        · rw [hc]; exact hk
        · rw [hc]; exact Cfg.key_mem_set cfg0 _ k v (Or.inr hk)
      refine ⟨fun k hk => hmono k (hmono0 k hk), ?_⟩
      intro s1 hs1 hacc hrec
      rcases List.mem_cons.mp hs1 with h1 | h1
      · subst h1
        obtain ⟨v, hv⟩ := flattenStep_accepted d flattenAll s1 cfg0 hacc hrec
        rw [hv] at hstep
        have hc : cfg1 = cfg0.set (localName s1.ID) v := by simpa using hstep.symm
        apply hmono
        rw [hc]
        exact Cfg.key_mem_set cfg0 _ _ v (Or.inl rfl)
      · exact hrest s1 h1 hacc hrec

theorem not_accepted_of_unknown (d : ResourceData) (flattenAll : Bool) (s : ZoneSetting)
    (h : (decide (s.ID ∈ schemaKeys) || s.ID == "0rtt") = false) :
    ¬ accepted d flattenAll s := by
  simp only [Bool.or_eq_false_iff, decide_eq_false_iff_not, beq_eq_false_iff_ne, ne_eq] at h
  intro hacc
  have : localName s.ID = s.ID := by simp [localName, h.2]
  rw [accepted, this] at hacc
  exact h.1 hacc.1

/-- C13: every key of the map that `flattenZoneSettings` returns is a name of the schema;
removing from the input the settings whose identifier is neither a name of the schema nor
`0rtt` does not change the result; and the function returns a map whenever the remote values
of the three nested names are maps. -/
theorem C13_unknown_settings_skipped (d : ResourceData) (settings : List ZoneSetting)
    (flattenAll : Bool) :
    (∀ cfg, flattenZoneSettings d settings flattenAll = .ok cfg →
      ∀ e ∈ cfg, e.1 ∈ schemaKeys) ∧
    flattenZoneSettings d
        (settings.filter fun s => decide (s.ID ∈ schemaKeys) || s.ID == "0rtt") flattenAll
      = flattenZoneSettings d settings flattenAll ∧
    ((∀ s ∈ settings, nestedNames.elem (localName s.ID) = true → ∃ m, s.Value = .map m) →
      ∃ cfg, flattenZoneSettings d settings flattenAll = .ok cfg) := by
  refine ⟨?_, ?_, ?_⟩
  · intro cfg h e he
    rcases flattenLoop_mem d flattenAll settings [] cfg h e he with h1 | ⟨s, _, hacc, hk⟩
    · simp at h1
    · rw [hk]
      exact hacc.1
  · exact flattenLoop_filter d flattenAll _
      (fun s hs => not_accepted_of_unknown d flattenAll s hs) settings []
  · intro h
    exact flattenLoop_total d flattenAll settings [] h

/-- C13, witness: the remote read `remoteWithUnknown` decodes, with all settings decoded, to
the three settings of the schema with a recognised value. -/
theorem C13_unknown_settings_skipped_witness :
    ∃ cfg, flattenZoneSettings dSparse remoteWithUnknown true = .ok cfg ∧
      cfg.map Prod.fst = ["ssl", "zero_rtt", "cache_level"] := by
  obtain ⟨cfg, h⟩ := (C13_unknown_settings_skipped dSparse remoteWithUnknown true).2.2
    (by
      intro s hs hn
      have hall : ∀ s ∈ remoteWithUnknown, nestedNames.elem (localName s.ID) = false := by
        decide
      rw [hall s hs] at hn
      cases hn)
  refine ⟨cfg, h, ?_⟩
  have h1 : flattenZoneSettings dSparse remoteWithUnknown true
      = .ok [("ssl", .str "full"), ("zero_rtt", .str "on"), ("cache_level", .str "aggressive")] := by
    decide
  rw [h1] at h
  have : cfg = [("ssl", .str "full"), ("zero_rtt", .str "on"), ("cache_level", .str "aggressive")] := by
    simpa using h.symm
  rw [this]
  rfl

/-- C18: without `flattenAll`, every key of the map that `flattenZoneSettings` returns is set in
the local settings; with `flattenAll`, every remote setting whose local name is in the schema
and whose value has a recognised type has its local name among the keys of the result; and
the function returns a map whenever the remote values of the three nested names are maps. -/
theorem C18_sparse_decode (d : ResourceData) (settings : List ZoneSetting) :
    (∀ cfg, flattenZoneSettings d settings false = .ok cfg →
      ∀ e ∈ cfg, (d.GetOkExists ("settings.0." ++ e.1)).2 = true) ∧
    (∀ cfg, flattenZoneSettings d settings true = .ok cfg →
      ∀ s ∈ settings, localName s.ID ∈ schemaKeys →
        recognised (localName s.ID) s.Value = true → localName s.ID ∈ cfg.map Prod.fst) ∧
    (∀ flattenAll,
      (∀ s ∈ settings, nestedNames.elem (localName s.ID) = true → ∃ m, s.Value = .map m) →
      ∃ cfg, flattenZoneSettings d settings flattenAll = .ok cfg) := by
  refine ⟨?_, ?_, ?_⟩
  · intro cfg h e he
    rcases flattenLoop_mem d false settings [] cfg h e he with h1 | ⟨s, _, hacc, hk⟩
    · simp at h1
    · rw [hk]
      rcases hacc.2 with h2 | h2
      · cases h2
      · exact h2
  · intro cfg h s hs hin hrec
    exact (flattenLoop_keys d true settings [] cfg h).2 s hs ⟨hin, Or.inl rfl⟩ hrec
  · intro flattenAll h
    exact flattenLoop_total d flattenAll settings [] h

/-- C18, witness: with only `cache_level` and `zero_rtt` set locally, the sparse decoding of
`remoteWithUnknown` has these two keys and not `ssl`; the full decoding has `ssl` too. -/
theorem C18_sparse_decode_witness :
    (∀ e ∈ [("zero_rtt", Value.str "on"), ("cache_level", Value.str "aggressive")],
      (dSparse.GetOkExists ("settings.0." ++ e.1)).2 = true) ∧
    localName "ssl" ∈
      List.map Prod.fst [("ssl", Value.str "full"), ("zero_rtt", Value.str "on"),
        ("cache_level", Value.str "aggressive")] :=
  ⟨(C18_sparse_decode dSparse remoteWithUnknown).1 _ (by decide),
   (C18_sparse_decode dSparse remoteWithUnknown).2.1 _ (by decide)
     { ID := "ssl", Editable := true, Value := .str "full" } (by decide) (by decide)
     (by decide)⟩

/-! ### The apply write-set as a list of entries -/

theorem expandOverriddenLoop_eq (d : ResourceData) (settingsKey : String) (ro : List String) :
    ∀ (order : List String) (acc : List ZoneSetting),
      (∀ k ∈ order, (d.GetOkExists (keyFormat settingsKey k)).2 = true →
        d.HasChange (keyFormat settingsKey k) = true →
        ∃ w, expandZoneSetting d (keyFormat settingsKey) k
          (d.GetOkExists (keyFormat settingsKey k)).1 ro = .ok (.ok w)) →
      expandOverriddenLoop d settingsKey ro order acc
        = .ok (acc ++ order.filterMap (overriddenEntry d settingsKey ro), none) := by
  intro order
  induction order with
  | nil => intro acc _; simp [expandOverriddenLoop]
  | cons k rest ih =>
    intro acc h
    have hrest := fun acc1 => ih acc1 (fun k1 hk1 => h k1 (List.mem_cons_of_mem _ hk1))
    unfold expandOverriddenLoop
    by_cases hc : (d.GetOkExists (keyFormat settingsKey k)).2 = true ∧
        d.HasChange (keyFormat settingsKey k) = true
    · obtain ⟨w, hw⟩ := h k (by simp) hc.1 hc.2
      rw [if_pos hc, hw]
      simp only
      by_cases hn : w ≠ .null
      · rw [if_pos hn, hrest]
        have he : overriddenEntry d settingsKey ro k
            = some { ID := wireID k, Editable := false, Value := w } := by
          simp only [overriddenEntry, if_pos hc, hw, if_pos hn]
        simp [List.filterMap_cons, he, wireID]
      · rw [if_neg hn, hrest]
        have he : overriddenEntry d settingsKey ro k = none := by
          simp only [overriddenEntry, if_pos hc, hw, if_neg hn]
        simp [List.filterMap_cons, he]
    · rw [if_neg hc, hrest]
      have he : overriddenEntry d settingsKey ro k = none := by
        simp only [overriddenEntry, if_neg hc]
      simp [List.filterMap_cons, he]

theorem expandOverridden_eq_of_typed (order : List String) (d : ResourceData)
    (ro : List String) (ht : ApplyTyped d)
    (hno : ∀ k ∈ order, (d.GetOkExists (keyFormat "settings" k)).2 = true →
      d.HasChange (keyFormat "settings" k) = true → contains ro k = false) :
    expandOverriddenZoneSettings order d "settings" ro
      = .ok (order.filterMap (overriddenEntry d "settings" ro), none) := by
  have h := expandOverriddenLoop_eq d "settings" ro order [] (by
    intro k hk hset hchg
    obtain ⟨r, hr⟩ := expandZoneSetting_total d (keyFormat "settings") k
      (d.GetOkExists (keyFormat "settings" k)).1 ro ht.polish (fun h => ht.nested k h)
    cases r with
    | error e =>
      have hinv := expandZoneSetting_error_inv _ _ _ _ _ _ hr
      rw [hno k hk hset hchg] at hinv
      simp at hinv
    | ok w => exact ⟨w, hr⟩)
  simpa [expandOverriddenZoneSettings] using h

theorem dEndToEnd_typed : ApplyTyped dEndToEnd where
  polish := ⟨"", by decide⟩
  nested := by
    intro k hk
    rcases hk with h | h | h <;> subst h <;> decide

theorem perm_two {α : Type} (l : List α) (a b : α) (h : l.Perm [a, b]) :
    l = [a, b] ∨ l = [b, a] := by
  have hm : l ∈ [a, b].permutations := List.mem_permutations.mpr h
  have e : [a, b].permutations = [[a, b], [b, a]] := by
    simp [List.permutations, List.permutationsAux, List.permutationsAux.rec,
      List.permutationsAux2]
  rw [e] at hm
  simpa using hm

/-- C17: in the end-to-end example, for every order in which the range yields the keys of the
schema, `expandOverriddenZoneSettings` returns without error a write-set that consists of
exactly the two entries `cache_level = "aggressive"` and `minify = {css: on, html: on,
js: off}`, and the update makes exactly one write call, `UpdateZoneSettings` with this
write-set. -/
theorem C17_end_to_end (order : List String) (horder : order.Perm schemaKeys) :
    ∃ zs, expandOverriddenZoneSettings order dEndToEnd "settings" [] = .ok (zs, none) ∧
      zs.Perm endToEndEntries ∧
      resourceCloudflareZoneSettingsOverrideUpdate order dEndToEnd okClient
        = (.ok none, [.UpdateZoneSettings "zone" zs]) := by
  have hexp := expandOverridden_eq_of_typed order dEndToEnd [] dEndToEnd_typed
    (fun _ _ _ _ => rfl)
  have hperm : (order.filterMap (overriddenEntry dEndToEnd "settings" [])).Perm
      endToEndEntries := by
    have h1 := horder.filterMap (overriddenEntry dEndToEnd "settings" [])
    have h2 : schemaKeys.filterMap (overriddenEntry dEndToEnd "settings" [])
        = endToEndEntries := by
      set_option maxRecDepth 100000 in decide
    rw [h2] at h1
    exact h1
  refine ⟨_, hexp, hperm, ?_⟩
  have hro : expandInterfaceToStringList (dEndToEnd.Get "readonly_settings") = [] := by decide
  have hgiven : settingsGiven dEndToEnd = .ok true := by decide
  have hid : dEndToEnd.Id = "zone" := rfl
  simp only [resourceCloudflareZoneSettingsOverrideUpdate, hgiven, hro, hexp, hid]
  rcases perm_two _ _ _ hperm with h | h <;> rw [h] <;> decide

/-- C17, witness: with the keys in the order of the source text the write-set is
`cache_level`, then `minify`. -/
theorem C17_end_to_end_witness :
    ∃ zs, expandOverriddenZoneSettings schemaKeys dEndToEnd "settings" [] = .ok (zs, none) ∧
      zs.Perm endToEndEntries ∧
      resourceCloudflareZoneSettingsOverrideUpdate schemaKeys dEndToEnd okClient
        = (.ok none, [.UpdateZoneSettings "zone" zs]) :=
  C17_end_to_end schemaKeys (List.Perm.refl _)

/-! ### The rename of zero_rtt -/

theorem wireID_ne_zero_rtt (k : String) : wireID k ≠ "zero_rtt" := by
  unfold wireID
  split
  · decide
  · assumption

theorem expandOverriddenLoop_ids (d : ResourceData) (settingsKey : String) (ro : List String) :
    ∀ (order : List String) (acc zs : List ZoneSetting) (e : Option Error),
      expandOverriddenLoop d settingsKey ro order acc = .ok (zs, e) →
      ∀ z ∈ zs, z ∈ acc ∨ ((∃ k ∈ order, z.ID = wireID k) ∧ z.Value ≠ .null) := by
  intro order
  induction order with
  | nil =>
    intro acc zs e h z hz
    simp [expandOverriddenLoop] at h
    exact Or.inl (h.1 ▸ hz)
  | cons k rest ih =>
    intro acc zs e h z hz
    have lift : (z ∈ acc ∨ ((∃ k1 ∈ rest, z.ID = wireID k1) ∧ z.Value ≠ .null)) →
        z ∈ acc ∨ ((∃ k1 ∈ k :: rest, z.ID = wireID k1) ∧ z.Value ≠ .null) := by
      rintro (h1 | ⟨⟨k1, hk1, hid⟩, hv⟩)
      · exact Or.inl h1
      · exact Or.inr ⟨⟨k1, List.mem_cons_of_mem _ hk1, hid⟩, hv⟩
    unfold expandOverriddenLoop at h
    split at h
    · split at h
      · simp at h
      · simp at h
        exact Or.inl (h.1 ▸ hz)
      · rename_i w hexp
        split at h
        · rename_i hw
          rcases ih _ zs e h z hz with h1 | h1
          · rcases List.mem_append.mp h1 with h2 | h2
            · exact Or.inl h2
            · simp at h2
              refine Or.inr ⟨⟨k, by simp, ?_⟩, ?_⟩
              · rw [h2]; rfl
              · rw [h2]; exact hw
          · exact lift (Or.inr h1)
        · exact lift (ih _ zs e h z hz)
    · exact lift (ih _ zs e h z hz)

theorem expandRevertibleLoop_ids (d : ResourceData) (ro : List String) :
    ∀ (order : List String) (acc zs : List ZoneSetting) (e : Option Error),
      expandRevertibleLoop d ro order acc = .ok (zs, e) →
      ∀ z ∈ zs, z ∈ acc ∨ ((∃ k ∈ order, z.ID = wireID k) ∧ z.Value ≠ .null) := by
  intro order
  induction order with
  | nil =>
    intro acc zs e h z hz
    simp [expandRevertibleLoop] at h
    exact Or.inl (h.1 ▸ hz)
  | cons k rest ih =>
    intro acc zs e h z hz
    have lift : (z ∈ acc ∨ ((∃ k1 ∈ rest, z.ID = wireID k1) ∧ z.Value ≠ .null)) →
        z ∈ acc ∨ ((∃ k1 ∈ k :: rest, z.ID = wireID k1) ∧ z.Value ≠ .null) := by
      rintro (h1 | ⟨⟨k1, hk1, hid⟩, hv⟩)
      · exact Or.inl h1
      · exact Or.inr ⟨⟨k1, List.mem_cons_of_mem _ hk1, hid⟩, hv⟩
    unfold expandRevertibleLoop at h
    split at h
    · split at h
      · simp at h
      · simp at h
        exact Or.inl (h.1 ▸ hz)
      · rename_i w hexp
        split at h
        · rename_i hw
          rcases ih _ zs e h z hz with h1 | h1
          · rcases List.mem_append.mp h1 with h2 | h2
            · exact Or.inl h2
            · simp at h2
              refine Or.inr ⟨⟨k, by simp, ?_⟩, ?_⟩
              · rw [h2]; rfl
              · rw [h2]; exact hw
          · exact lift (Or.inr h1)
        · exact lift (ih _ zs e h z hz)
    · exact lift (ih _ zs e h z hz)

theorem wireID_cases (k : String) (hk : k ∈ schemaKeys) :
    wireID k ≠ "zero_rtt" ∧ (wireID k = "0rtt" ∨ wireID k ∈ schemaKeys) := by
  refine ⟨wireID_ne_zero_rtt k, ?_⟩
  unfold wireID
  split
  · exact Or.inl rfl
  · exact Or.inr hk

theorem overriddenEntry_zero_rtt (d : ResourceData) (ro : List String)
    (hset : (d.GetOkExists (keyFormat "settings" "zero_rtt")).2 = true)
    (hchg : d.HasChange (keyFormat "settings" "zero_rtt") = true)
    (hro : contains ro "zero_rtt" = false)
    (hv : (d.GetOkExists (keyFormat "settings" "zero_rtt")).1 ≠ .null) :
    overriddenEntry d "settings" ro "zero_rtt"
      = some { ID := "0rtt", Editable := false,
               Value := (d.GetOkExists (keyFormat "settings" "zero_rtt")).1 } := by
  have h1 : ¬ ("zero_rtt" = "webp") := by decide
  have h2 : ¬ ("zero_rtt" = "minify" ∨ "zero_rtt" = "mobile_redirect") := by decide
  have h3 : ¬ ("zero_rtt" = "security_header") := by decide
  have henc : expandZoneSetting d (keyFormat "settings") "zero_rtt"
      (d.GetOkExists (keyFormat "settings" "zero_rtt")).1 ro
        = .ok (.ok (d.GetOkExists (keyFormat "settings" "zero_rtt")).1) := by
    simp only [expandZoneSetting, hro, h1, h2, h3, if_false]
    simp
  simp only [overriddenEntry, hset, hchg, and_self, if_true, henc, if_pos hv]
  rfl

/-- C14: the decoder never produces the key `0rtt` and decodes a remote setting with the
identifier `0rtt` under the key `zero_rtt`; every entry of a write-set of the apply or of
the revert has an identifier other than `zero_rtt`, which is `0rtt` or a name of the schema
unchanged; and when `zero_rtt` is set and changed (for the revert: differs from its
baseline) and no read-only name stands in the way, the write-set holds its value under the
identifier `0rtt`. -/
theorem C14_rename_at_boundary (order : List String) (d : ResourceData) (ro : List String)
    (horder : ∀ k ∈ order, k ∈ schemaKeys) :
    (∀ settings flattenAll cfg, flattenZoneSettings d settings flattenAll = .ok cfg →
      (∀ e ∈ cfg, e.1 ≠ "0rtt") ∧
      ∀ s ∈ settings, s.ID = "0rtt" →
        flattenAll = true ∨ (d.GetOkExists ("settings.0." ++ "zero_rtt")).2 = true →
        recognised "zero_rtt" s.Value = true → "zero_rtt" ∈ cfg.map Prod.fst) ∧
    (∀ flattenAll editable v,
      flattenAll = true ∨ (d.GetOkExists ("settings.0." ++ "zero_rtt")).2 = true →
      flattenZoneSettings d [{ ID := "0rtt", Editable := editable, Value := .str v }] flattenAll
        = .ok [("zero_rtt", .str v)]) ∧
    (∀ zs e, expandOverriddenZoneSettings order d "settings" ro = .ok (zs, e) →
      ∀ z ∈ zs, z.ID ≠ "zero_rtt" ∧ (z.ID = "0rtt" ∨ z.ID ∈ schemaKeys)) ∧
    (∀ zs e, expandRevertibleZoneSettings order d ro = .ok (zs, e) →
      ∀ z ∈ zs, z.ID ≠ "zero_rtt" ∧ (z.ID = "0rtt" ∨ z.ID ∈ schemaKeys)) ∧
    (ApplyTyped d →
      (∀ k ∈ order, (d.GetOkExists (keyFormat "settings" k)).2 = true →
        d.HasChange (keyFormat "settings" k) = true → contains ro k = false) →
      "zero_rtt" ∈ order →
      (d.GetOkExists (keyFormat "settings" "zero_rtt")).2 = true →
      d.HasChange (keyFormat "settings" "zero_rtt") = true →
      (d.GetOkExists (keyFormat "settings" "zero_rtt")).1 ≠ .null →
      ∃ zs, expandOverriddenZoneSettings order d "settings" ro = .ok (zs, none) ∧
        { ID := "0rtt", Editable := false,
          Value := (d.GetOkExists (keyFormat "settings" "zero_rtt")).1 } ∈ zs) ∧
    (RevertTyped d →
      (∀ k ∈ order, (d.GetOk ("settings.0." ++ k)).2 = true →
        schemaValueEquals (d.Get ("initial_settings.0." ++ k))
          (d.GetOk ("settings.0." ++ k)).1 = false →
        contains ro (wireID k) = false) →
      "zero_rtt" ∈ order →
      (d.GetOk ("settings.0." ++ "zero_rtt")).2 = true →
      schemaValueEquals (d.Get ("initial_settings.0." ++ "zero_rtt"))
        (d.GetOk ("settings.0." ++ "zero_rtt")).1 = false →
      d.Get ("initial_settings.0." ++ "zero_rtt") ≠ .null →
      ∃ zs, expandRevertibleZoneSettings order d ro = .ok (zs, none) ∧
        { ID := "0rtt", Editable := false,
          Value := d.Get ("initial_settings.0." ++ "zero_rtt") } ∈ zs) := by
  have hz : "zero_rtt" ∈ schemaKeys := by decide
  refine ⟨?_, ?_, ?_, ?_, ?_, ?_⟩
  · intro settings flattenAll cfg h
    constructor
    · intro e he h0
      rcases flattenLoop_mem d flattenAll settings [] cfg h e he with h1 | ⟨s, _, hacc, hk⟩
      · simp at h1
      · have hin := hacc.1
        rw [← hk, h0] at hin
        exact zero_rtt_wire_not_in_schema hin
    · intro s hs hid hset hrec
      have hl : localName s.ID = "zero_rtt" := by rw [hid]; rfl
      have := (flattenLoop_keys d flattenAll settings [] cfg h).2 s hs
        (by rw [accepted, hl]; exact ⟨hz, hset⟩) (by rw [hl]; exact hrec)
      rw [hl] at this
      exact this
  · intro flattenAll editable v hset
    exact flatten_one_plain d flattenAll editable "zero_rtt" (.str v) hz (by decide)
      (Or.inl ⟨v, rfl⟩) hset
  · intro zs e h z hzs
    rcases expandOverriddenLoop_ids d "settings" ro order [] zs e h z hzs with
      h1 | ⟨⟨k, hk, hid⟩, _⟩
    · simp at h1
    · rw [hid]
      exact wireID_cases k (horder k hk)
  · intro zs e h z hzs
    rcases expandRevertibleLoop_ids d ro order [] zs e h z hzs with h1 | ⟨⟨k, hk, hid⟩, _⟩
    · simp at h1
    · rw [hid]
      exact wireID_cases k (horder k hk)
  · intro ht hno hin hset hchg hv
    refine ⟨_, expandOverridden_eq_of_typed order d ro ht hno, ?_⟩
    exact List.mem_filterMap.mpr ⟨"zero_rtt", hin,
      overriddenEntry_zero_rtt d ro hset hchg (hno _ hin hset hchg) hv⟩
  · intro ht hno hin hset hdiff hv
    obtain ⟨zs, hzs, _, hall⟩ := expandRevertibleLoop_complete d ro ht order [] hno
    refine ⟨zs, hzs, ?_⟩
    have hro : contains ro "0rtt" = false := hno _ hin hset hdiff
    have h1 : ¬ ("0rtt" = "webp") := by decide
    have h2 : ¬ ("0rtt" = "minify" ∨ "0rtt" = "mobile_redirect") := by decide
    have h3 : ¬ ("0rtt" = "security_header") := by decide
    have henc : expandZoneSetting d (keyFormat "initial_settings") (wireID "zero_rtt")
        (d.Get ("initial_settings.0." ++ "zero_rtt")) ro
          = .ok (.ok (d.Get ("initial_settings.0." ++ "zero_rtt"))) := by
      have hw : wireID "zero_rtt" = "0rtt" := rfl
      rw [hw]
      simp only [expandZoneSetting, hro, h1, h2, h3, if_false]
      simp
    exact hall "zero_rtt" hin hset hdiff _ henc hv

theorem dRename_applyTyped : ApplyTyped dRename where
  polish := ⟨"", by decide⟩
  nested := by
    intro k hk
    rcases hk with h | h | h <;> subst h <;> decide

theorem dRename_revertTyped : RevertTyped dRename where
  polish := ⟨"", by decide⟩
  nested := by
    intro k hk
    rcases hk with h | h | h <;> subst h <;> decide

/-- C14, witness: in `dRename` the apply writes `0rtt = "on"` and the revert writes
`0rtt = "off"`. -/
theorem C14_rename_at_boundary_witness :
    (∃ zs, expandOverriddenZoneSettings schemaKeys dRename "settings" [] = .ok (zs, none) ∧
      { ID := "0rtt", Editable := false,
        Value := (dRename.GetOkExists (keyFormat "settings" "zero_rtt")).1 } ∈ zs) ∧
    (∃ zs, expandRevertibleZoneSettings schemaKeys dRename [] = .ok (zs, none) ∧
      { ID := "0rtt", Editable := false,
        Value := dRename.Get ("initial_settings.0." ++ "zero_rtt") } ∈ zs) :=
  ⟨(C14_rename_at_boundary schemaKeys dRename [] (fun _ hk => hk)).2.2.2.2.1
      dRename_applyTyped (fun _ _ _ _ => rfl) (by decide) (by decide) (by decide) (by decide),
   (C14_rename_at_boundary schemaKeys dRename [] (fun _ hk => hk)).2.2.2.2.2
      dRename_revertTyped (fun _ _ _ _ => rfl) (by decide) (by decide) (by decide)
      (by decide)⟩

/-! ### The nested names -/

theorem wireID_of_nested (k : String) (hk : nestedNames.elem k = true) : wireID k = k := by
  rcases (nestedNames_elem k).mp hk with h | h | h <;> subst h <;> decide

theorem expandZoneSetting_nested_empty (d : ResourceData) (kf : String → String) (k : String)
    (ro : List String) (hk : nestedNames.elem k = true) (hro : contains ro k = false) :
    expandZoneSetting d kf k (.list []) ro = .ok (.ok .null) := by
  rcases (nestedNames_elem k).mp hk with h | h | h <;> subst h <;>
    simp [expandZoneSetting, hro]

/-- C19: for every map `m`, the encoder turns the local `security_header` value `[m]` into the
wire map with the one key `strict_transport_security` and the value `m`, and the decoder turns
that wire map back into `[m]`; for `minify` and `mobile_redirect` the encoder turns `[m]` into
`m` and the decoder `m` into `[m]`; and for each of the three names the encoder turns the
empty list into the nil value without error, so that the apply and the revert, ranging over
that name, append nothing and return no error. -/
theorem C19_security_header_envelope (d : ResourceData) (settingsKey : String)
    (ro : List String) (m : List (String × Value)) :
    (contains ro "security_header" = false →
      expandZoneSetting d (keyFormat settingsKey) "security_header" (.list [.map m]) ro
        = .ok (.ok (.map [("strict_transport_security", .map m)]))) ∧
    (∀ flattenAll editable,
      flattenAll = true ∨ (d.GetOkExists ("settings.0." ++ "security_header")).2 = true →
      flattenZoneSettings d
          [{ ID := "security_header", Editable := editable,
             Value := .map [("strict_transport_security", .map m)] }] flattenAll
        = .ok [("security_header", .list [.map m])]) ∧
    (∀ k, k = "minify" ∨ k = "mobile_redirect" →
      (contains ro k = false →
        expandZoneSetting d (keyFormat settingsKey) k (.list [.map m]) ro = .ok (.ok (.map m))) ∧
      ∀ flattenAll editable,
        flattenAll = true ∨ (d.GetOkExists ("settings.0." ++ k)).2 = true →
        flattenZoneSettings d [{ ID := k, Editable := editable, Value := .map m }] flattenAll
          = .ok [(k, .list [.map m])]) ∧
    (∀ k, nestedNames.elem k = true → contains ro k = false →
      expandZoneSetting d (keyFormat settingsKey) k (.list []) ro = .ok (.ok .null) ∧
      ((d.GetOkExists (keyFormat "settings" k)).2 = true →
        d.HasChange (keyFormat "settings" k) = true →
        (d.GetOkExists (keyFormat "settings" k)).1 = .list [] →
        expandOverriddenZoneSettings [k] d "settings" ro = .ok ([], none)) ∧
      ((d.GetOk ("settings.0." ++ k)).2 = true →
        schemaValueEquals (d.Get ("initial_settings.0." ++ k))
          (d.GetOk ("settings.0." ++ k)).1 = false →
        d.Get ("initial_settings.0." ++ k) = .list [] →
        expandRevertibleZoneSettings [k] d ro = .ok ([], none))) := by
  refine ⟨?_, ?_, ?_, ?_⟩
  · intro hro
    simp [expandZoneSetting, hro]
  · intro flattenAll editable hset
    have h := flatten_one_security_header d flattenAll editable m hset
    have hw : wireID "security_header" = "security_header" := by decide
    rw [hw] at h
    exact h
  · intro k hk
    have hin : k ∈ schemaKeys := by
      rcases hk with h | h <;> subst h <;> decide
    have hw : wireID k = k :=
      wireID_of_nested k ((nestedNames_elem k).mpr (hk.elim Or.inl (fun h => Or.inr (Or.inl h))))
    constructor
    · intro hro
      rcases hk with h | h <;> subst h <;> simp [expandZoneSetting, hro]
    · intro flattenAll editable hset
      have h := flatten_one_nested d flattenAll editable k m hin hk hset
      rw [hw] at h
      exact h
  · intro k hk hro
    have henc : ∀ kf, expandZoneSetting d kf k (.list []) ro = .ok (.ok .null) :=
      fun kf => expandZoneSetting_nested_empty d kf k ro hk hro
    have hw : wireID k = k := wireID_of_nested k hk
    refine ⟨henc _, ?_, ?_⟩
    · intro hset hchg hval
      simp only [expandOverriddenZoneSettings, expandOverriddenLoop, hset, hchg, and_self,
        if_true, hval, henc]
      simp
    · intro hset hdiff hval
      have hw1 : (if k = "zero_rtt" then "0rtt" else k) = k := hw
      simp only [expandRevertibleZoneSettings, expandRevertibleLoop, hset, hdiff, and_self,
        if_true, hval, hw1, henc]
      simp

/-- C19, witness: the envelope of a policy; in `dEmptyApply` the changed `security_header`
is the empty list, in `dEmptyRevert` its baseline is; the apply and the revert over this name
return the empty write-set. -/
theorem C19_security_header_envelope_witness :
    expandZoneSetting dEmptyApply (keyFormat "settings") "security_header"
        (.list [.map [("enabled", .bool true)]]) []
      = .ok (.ok (.map [("strict_transport_security", .map [("enabled", .bool true)])])) ∧
    expandOverriddenZoneSettings ["security_header"] dEmptyApply "settings" []
      = .ok ([], none) ∧
    expandRevertibleZoneSettings ["security_header"] dEmptyRevert [] = .ok ([], none) :=
  ⟨(C19_security_header_envelope dEmptyApply "settings" [] [("enabled", .bool true)]).1 rfl,
   ((C19_security_header_envelope dEmptyApply "settings" [] []).2.2.2
      "security_header" (by decide) rfl).2.1 (by decide) (by decide) (by decide),
   ((C19_security_header_envelope dEmptyRevert "settings" [] []).2.2.2
      "security_header" (by decide) rfl).2.2 (by decide) (by decide) (by decide)⟩

/-! ### The toggle write -/

theorem universalSSLLoop_skip (client : Client) (zoneID : String) :
    ∀ (pre rest : List ZoneSetting) (i : Nat) (indexToCut : Option Nat) (trace : List Call),
      (∀ z ∈ pre, z.ID ≠ "universal_ssl") →
      universalSSLLoop client zoneID (pre ++ rest) i indexToCut trace
        = universalSSLLoop client zoneID rest (i + pre.length) indexToCut trace := by
  intro pre
  induction pre with
  | nil => intro rest i idx trace _; simp
  | cons z pre1 ih =>
    intro rest i idx trace h
    have hz : ¬ (z.ID = "universal_ssl") := h z (by simp)
    rw [List.cons_append, universalSSLLoop, if_neg hz,
      ih rest (i + 1) idx trace (fun z1 hz1 => h z1 (List.mem_cons_of_mem _ hz1))]
    simp [Nat.add_assoc, Nat.add_comm 1]

theorem universalSSLLoop_none (client : Client) (zoneID : String) (zs : List ZoneSetting)
    (i : Nat) (indexToCut : Option Nat) (trace : List Call)
    (h : ∀ z ∈ zs, z.ID ≠ "universal_ssl") :
    universalSSLLoop client zoneID zs i indexToCut trace = (.ok (.ok indexToCut), trace) := by
  have := universalSSLLoop_skip client zoneID zs [] i indexToCut trace h
  simpa [universalSSLLoop] using this

theorem cutIndex_middle (pre post : List ZoneSetting) (u : ZoneSetting) :
    cutIndex (pre ++ u :: post) pre.length = .ok (pre ++ post) := by
  have hlen : pre.length + 1 ≤ (pre ++ u :: post).length := by simp
  simp only [cutIndex, if_pos hlen]
  simp

/-- C20: for a batch with exactly one `universal_ssl` entry, whose value is the string `v`, and
a client that accepts the call, `updateUniversalSSLSetting` makes no call when `v` is empty
and exactly one `EditUniversalSSLSetting` call otherwise, and returns the batch without that
entry, the other entries unchanged and in their order; a batch with no `universal_ssl`
entry is returned unchanged with no call. -/
theorem C20_toggle_write (pre post : List ZoneSetting) (u : ZoneSetting) (v : String)
    (client : Client) (zoneID : String) (trace : List Call)
    (hu : u.ID = "universal_ssl") (hv : u.Value = .str v)
    (hpre : ∀ z ∈ pre, z.ID ≠ "universal_ssl") (hpost : ∀ z ∈ post, z.ID ≠ "universal_ssl")
    (hclient : client trace (.EditUniversalSSLSetting zoneID (boolFromString v)) = none) :
    updateUniversalSSLSetting (pre ++ u :: post) client zoneID trace
      = (.ok (pre ++ post, none),
          if v = "" then trace
          else trace ++ [.EditUniversalSSLSetting zoneID (boolFromString v)]) ∧
    ∀ zs : List ZoneSetting, (∀ z ∈ zs, z.ID ≠ "universal_ssl") →
      updateUniversalSSLSetting zs client zoneID trace = (.ok (zs, none), trace) := by
  constructor
  · have hloop : universalSSLLoop client zoneID (pre ++ u :: post) 0 none trace
        = (.ok (.ok (some pre.length)),
            if v = "" then trace
            else trace ++ [.EditUniversalSSLSetting zoneID (boolFromString v)]) := by
      rw [universalSSLLoop_skip client zoneID pre (u :: post) 0 none trace hpre,
        universalSSLLoop, if_pos hu, hv]
      simp only
      by_cases hempty : v = ""
      · have hne : ¬ (v ≠ "") := by simpa using hempty
        rw [if_neg hne, if_pos hempty, universalSSLLoop_none client zoneID post _ _ _ hpost]
        simp
      · rw [if_pos hempty, if_neg hempty, hclient]
        simp only
        rw [universalSSLLoop_none client zoneID post _ _ _ hpost]
        simp
    simp only [updateUniversalSSLSetting, hloop, cutIndex_middle]
  · intro zs hzs
    simp only [updateUniversalSSLSetting, universalSSLLoop_none client zoneID zs 0 none trace hzs]

/-- C20, witness: the toggle entry of `writeSetMixed` stands between two entries before and
one after; one call is made and the entry is removed. -/
theorem C20_toggle_write_witness :
    updateUniversalSSLSetting
        ([{ ID := "binary_ast", Editable := false, Value := .str "on" },
          { ID := "cache_level", Editable := false, Value := .str "basic" }] ++
         { ID := "universal_ssl", Editable := false, Value := .str "on" } ::
         [{ ID := "early_hints", Editable := false, Value := .str "on" }]) okClient "zone" []
      = (.ok ([{ ID := "binary_ast", Editable := false, Value := .str "on" },
               { ID := "cache_level", Editable := false, Value := .str "basic" }] ++
              [{ ID := "early_hints", Editable := false, Value := .str "on" }], none),
          if "on" = "" then []
          else [] ++ [.EditUniversalSSLSetting "zone" (boolFromString "on")]) :=
  (C20_toggle_write
    [{ ID := "binary_ast", Editable := false, Value := .str "on" },
     { ID := "cache_level", Editable := false, Value := .str "basic" }]
    [{ ID := "early_hints", Editable := false, Value := .str "on" }]
    { ID := "universal_ssl", Editable := false, Value := .str "on" } "on" okClient "zone" []
    rfl rfl (by decide) (by decide) rfl).1

/-! ### The removal loop of the single-fetch entries -/

theorem cutIndex_length (zoneSettings cut : List ZoneSetting) (indexToCut : Nat)
    (h : cutIndex zoneSettings indexToCut = .ok cut) : cut.length + 1 = zoneSettings.length := by
  unfold cutIndex at h
  split at h
  · rename_i hle
    have hc : cut = zoneSettings.take indexToCut ++ zoneSettings.drop (indexToCut + 1) := by
      simpa using h.symm
    rw [hc]
    simp only [List.length_append, List.length_take, List.length_drop]
    omega
  · simp at h

theorem cutLoop_length :
    ∀ (indexesToCut : List Nat) (zoneSettings cut : List ZoneSetting),
      cutLoop indexesToCut zoneSettings = .ok cut →
      cut.length + indexesToCut.length = zoneSettings.length := by
  intro indexesToCut
  induction indexesToCut with
  | nil =>
    intro zoneSettings cut h
    simp [cutLoop] at h
    simp [h]
  | cons i rest ih =>
    intro zoneSettings cut h
    unfold cutLoop at h
    cases hc : cutIndex zoneSettings i with
    | error c => rw [hc] at h; simp at h
    | ok cut1 =>
      rw [hc] at h
      have h1 := ih cut1 cut h
      have h2 := cutIndex_length zoneSettings cut1 i hc
      simp only [List.length_cons]
      omega

theorem updateSingleLoop_indexes (client : Client) (zoneID : String)
    (hclient : ∀ t c, client t c = none) :
    ∀ (zoneSettings : List ZoneSetting) (i : Nat) (indexesToCut : List Nat) (trace : List Call),
      ∃ found, updateSingleLoop client zoneID zoneSettings i indexesToCut trace
          = (.ok found, trace ++ singleCalls zoneID zoneSettings) ∧
        found.length = indexesToCut.length
          + (zoneSettings.filter fun s => contains fetchAsSingleSetting s.ID).length := by
  intro zoneSettings
  induction zoneSettings with
  | nil =>
    intro i idx trace
    exact ⟨idx, by simp [updateSingleLoop, singleCalls], by simp⟩
  | cons s rest ih =>
    intro i idx trace
    unfold updateSingleLoop
    by_cases hs : contains fetchAsSingleSetting s.ID = true
    · rw [if_pos hs, hclient]
      simp only
      obtain ⟨found, hf, hlen⟩ := ih (i + 1) (idx ++ [i])
        (trace ++ [.UpdateZoneSingleSetting zoneID s.ID s])
      refine ⟨found, ?_, ?_⟩
      · rw [hf]
        simp [singleCalls, List.filter, hs]
      · rw [hlen]
        simp [List.filter, hs]
        omega
    · rw [if_neg hs]
      have hs0 : contains fetchAsSingleSetting s.ID = false := by simpa using hs
      obtain ⟨found, hf, hlen⟩ := ih (i + 1) idx trace
      refine ⟨found, ?_, ?_⟩
      · rw [hf]
        simp [singleCalls, List.filter, hs0]
      · rw [hlen]
        simp [List.filter, hs0]

/-- When `updateSingleZoneSettings` returns a list, with a client whose writes succeed, the
length of that list is the length of the input minus the number of single-fetch entries. -/
theorem updateSingleZoneSettings_length (zoneSettings cut : List ZoneSetting) (client : Client)
    (zoneID : String) (trace trace1 : List Call) (e : Option Error)
    (hclient : ∀ t c, client t c = none)
    (h : updateSingleZoneSettings zoneSettings client zoneID trace = (.ok (cut, e), trace1)) :
    cut.length + (zoneSettings.filter fun s => contains fetchAsSingleSetting s.ID).length
      = zoneSettings.length := by
  obtain ⟨found, hf, hlen⟩ := updateSingleLoop_indexes client zoneID hclient zoneSettings 0 []
    trace
  simp only [updateSingleZoneSettings, hf] at h
  cases hc : cutLoop found zoneSettings with
  | error c => rw [hc] at h; simp at h
  | ok cut1 =>
    rw [hc] at h
    have h1 := cutLoop_length found zoneSettings cut1 hc
    have h2 : cut1 = cut := by
      simp only [Prod.mk.injEq, Except.ok.injEq] at h
      exact h.1.1
    rw [← h2]
    simp only [List.length_nil, Nat.zero_add] at hlen
    omega

/-- C21: at the failing input, a bulk entry followed by two single-fetch entries and a client
whose writes succeed, the first loop collects the indexes 1 and 2; cutting index 1 leaves two
entries, and cutting index 2 of these slices the list out of its bounds: the function ends
in a panic and returns no list. -/
theorem C21_removal_loop_out_of_bounds :
    updateSingleLoop okClient "zone" writeSetBulkThenSingles 0 [] []
      = (.ok [1, 2],
          [.UpdateZoneSingleSetting "zone" "image_resizing"
             { ID := "image_resizing", Editable := false, Value := .str "on" },
           .UpdateZoneSingleSetting "zone" "early_hints"
             { ID := "early_hints", Editable := false, Value := .str "on" }]) ∧
    cutIndex writeSetBulkThenSingles 1
      = .ok [{ ID := "cache_level", Editable := false, Value := .str "basic" },
             { ID := "early_hints", Editable := false, Value := .str "on" }] ∧
    cutIndex [{ ID := "cache_level", Editable := false, Value := .str "basic" },
              { ID := "early_hints", Editable := false, Value := .str "on" }] 2
      = .error .sliceBounds ∧
    updateSingleZoneSettings writeSetBulkThenSingles okClient "zone" []
      = (.error .sliceBounds,
          [.UpdateZoneSingleSetting "zone" "image_resizing"
             { ID := "image_resizing", Editable := false, Value := .str "on" },
           .UpdateZoneSingleSetting "zone" "early_hints"
             { ID := "early_hints", Editable := false, Value := .str "on" }]) := by
  decide

/-! ### When the apply fails -/

theorem expandOverriddenLoop_error_inv (d : ResourceData) (settingsKey : String)
    (ro : List String) :
    ∀ (order : List String) (acc zs : List ZoneSetting) (err : Error),
      expandOverriddenLoop d settingsKey ro order acc = .ok (zs, some err) →
      ∃ k ∈ order, (d.GetOkExists (keyFormat settingsKey k)).2 = true ∧
        d.HasChange (keyFormat settingsKey k) = true ∧ contains ro k = true ∧
        err = .readOnly k (d.GetOkExists (keyFormat settingsKey k)).1 := by
  intro order
  induction order with
  | nil =>
    intro acc zs err h
    simp [expandOverriddenLoop] at h
  | cons k rest ih =>
    intro acc zs err h
    have lift : (∃ k1 ∈ rest, (d.GetOkExists (keyFormat settingsKey k1)).2 = true ∧
        d.HasChange (keyFormat settingsKey k1) = true ∧ contains ro k1 = true ∧
        err = .readOnly k1 (d.GetOkExists (keyFormat settingsKey k1)).1) →
        ∃ k1 ∈ k :: rest, (d.GetOkExists (keyFormat settingsKey k1)).2 = true ∧
          d.HasChange (keyFormat settingsKey k1) = true ∧ contains ro k1 = true ∧
          err = .readOnly k1 (d.GetOkExists (keyFormat settingsKey k1)).1 := by
      rintro ⟨k1, hk1, hrest⟩
      exact ⟨k1, List.mem_cons_of_mem _ hk1, hrest⟩
    unfold expandOverriddenLoop at h
    split at h
    · rename_i hcond
      split at h
      · simp at h
      · rename_i err1 hexp
        have hinv := expandZoneSetting_error_inv _ _ _ _ _ _ hexp
        simp only [Except.ok.injEq, Prod.mk.injEq, Option.some.injEq] at h
        exact ⟨k, by simp, hcond.1, hcond.2, hinv.1, by rw [← h.2, hinv.2]⟩
      · split at h
        · exact lift (ih _ zs err h)
        · exact lift (ih _ zs err h)
    · exact lift (ih _ zs err h)

theorem dThreeKinds_applyTyped : ApplyTyped dThreeKinds where
  polish := ⟨"", by decide⟩
  nested := by
    intro k hk
    rcases hk with h | h | h <;> subst h <;> decide

theorem dUnchanged_applyTyped : ApplyTyped dUnchanged where
  polish := ⟨"", by decide⟩
  nested := by
    intro k hk
    rcases hk with h | h | h <;> subst h <;> decide

/-- C22: for every order in which the range yields the keys of the schema,
`expandOverriddenZoneSettings` returns an error exactly when some name of the schema is set,
has changed, and is in the list of read-only names passed in; the error is then the
read-only error for such a name; and when every name of that list is unchanged or not set,
the function returns a write-set without error. -/
theorem C22_apply_fails_iff (order : List String) (d : ResourceData) (ro : List String)
    (horder : order.Perm schemaKeys) (ht : ApplyTyped d) :
    ((∃ zs err, expandOverriddenZoneSettings order d "settings" ro = .ok (zs, some err)) ↔
      ∃ k ∈ schemaKeys, (d.GetOkExists (keyFormat "settings" k)).2 = true ∧
        d.HasChange (keyFormat "settings" k) = true ∧ contains ro k = true) ∧
    (∀ zs err, expandOverriddenZoneSettings order d "settings" ro = .ok (zs, some err) →
      ∃ k ∈ schemaKeys, (d.GetOkExists (keyFormat "settings" k)).2 = true ∧
        d.HasChange (keyFormat "settings" k) = true ∧ contains ro k = true ∧
        err = .readOnly k (d.GetOkExists (keyFormat "settings" k)).1) ∧
    ((∀ k ∈ schemaKeys, contains ro k = true →
        (d.GetOkExists (keyFormat "settings" k)).2 = false ∨
        d.HasChange (keyFormat "settings" k) = false) →
      ∃ zs, expandOverriddenZoneSettings order d "settings" ro = .ok (zs, none)) := by
  have hinv : ∀ zs err, expandOverriddenZoneSettings order d "settings" ro
      = .ok (zs, some err) →
      ∃ k ∈ schemaKeys, (d.GetOkExists (keyFormat "settings" k)).2 = true ∧
        d.HasChange (keyFormat "settings" k) = true ∧ contains ro k = true ∧
        err = .readOnly k (d.GetOkExists (keyFormat "settings" k)).1 := by
    intro zs err h
    obtain ⟨k, hk, hrest⟩ := expandOverriddenLoop_error_inv d "settings" ro order [] zs err h
    exact ⟨k, horder.mem_iff.mp hk, hrest⟩
  refine ⟨⟨?_, ?_⟩, hinv, ?_⟩
  · rintro ⟨zs, err, h⟩
    obtain ⟨k, hk, hset, hchg, hro, _⟩ := hinv zs err h
    exact ⟨k, hk, hset, hchg, hro⟩
  · rintro ⟨k, hk, hset, hchg, hro⟩
    obtain ⟨zs, k1, v1, h, _⟩ := expandOverriddenLoop_readOnly d ro ht k hset hchg hro order []
      (horder.mem_iff.mpr hk)
    exact ⟨zs, _, h⟩
  · intro hno
    refine ⟨_, expandOverridden_eq_of_typed order d ro ht ?_⟩
    intro k hk hset hchg
    by_contra hc
    have hro : contains ro k = true := by simpa using hc
    rcases hno k (horder.mem_iff.mp hk) hro with h | h
    · rw [h] at hset; cases hset
    · rw [h] at hchg; cases hchg

/-- C22, witness: with `cache_level` read-only, the apply of `dThreeKinds`, which changes
`cache_level`, fails, and the apply of `dUnchanged`, in which `cache_level` is set and
unchanged, returns without error. -/
theorem C22_apply_fails_iff_witness :
    (∃ zs err, expandOverriddenZoneSettings schemaKeys dThreeKinds "settings" ["cache_level"]
        = .ok (zs, some err)) ∧
    (∃ zs, expandOverriddenZoneSettings schemaKeys dUnchanged "settings" ["cache_level"]
        = .ok (zs, none)) :=
  ⟨(C22_apply_fails_iff schemaKeys dThreeKinds ["cache_level"] (List.Perm.refl _)
      dThreeKinds_applyTyped).1.mpr
      ⟨"cache_level", by decide, by decide, by decide, by decide⟩,
   (C22_apply_fails_iff schemaKeys dUnchanged ["cache_level"] (List.Perm.refl _)
      dUnchanged_applyTyped).2.2 (by set_option maxRecDepth 100000 in decide)⟩

/-- With one single-fetch entry and the toggle entry the batch becomes empty and no bulk call
is made. -/
theorem writeZoneSettings_single_and_toggle :
    writeZoneSettings
        [{ ID := "binary_ast", Editable := false, Value := .str "on" },
         { ID := "universal_ssl", Editable := false, Value := .str "on" }] okClient "zone"
      = (.ok none,
          [.UpdateZoneSingleSetting "zone" "binary_ast"
             { ID := "binary_ast", Editable := false, Value := .str "on" },
           .EditUniversalSSLSetting "zone" true]) := by
  decide

/-- The conversion of a `float64` to an `int` discards the fraction, towards zero, and keeps
an integer of the 64-bit range. -/
theorem intOfFloat_examples :
    intOfFloat (mkRat 7 2) = 3 ∧ intOfFloat (mkRat (-7) 2) = -3 ∧
    intOfFloat ((14400 : Int) : ℚ) = 14400 ∧
    flattenZoneSettings dUnchanged
        [{ ID := "browser_cache_ttl", Editable := true, Value := .float (mkRat 7 2) }] true
      = .ok [("browser_cache_ttl", .int 3)] := by
  decide

end ZoneSettings
